import Mathlib

/-!
Shallow embedding of the FIDES-DPP passport registry contract
(`src/dpp_contract/lib.rs`, ink! module `dpp_contract_v2`).

Modelling conventions:
* `u128` and `u32` machine values are modelled as `Nat`.  The contract's only
  explicitly checked arithmetic (`checked_add` / `checked_sub` on the balance
  map, `u128`) is modelled with the `2^128 - 1` bound exactly as in the
  source; the unchecked increments (`next_token_id += 1`, `record.version + 1`)
  are modelled as plain `Nat` successor, and the range theorems below show the
  values stay far below the machine bounds on every feasibly reachable state,
  so exact and machine arithmetic coincide there.
* `Address` (ink! `Address`) and 32-byte hashes are opaque decidable values,
  modelled as `Nat`.
* each ink! `Mapping` is a total function into `Option`, with `insert` /
  `remove` as pointwise update; `operator_approvals : Mapping<(Address,
  Address), ()>` is modelled by its `contains` view, a `Bool`-valued function.
* every `#[ink(message)]` takes the host-supplied context (`caller`, and
  `block_number` where the source reads it) as explicit arguments and returns
  the `Result` value of the source paired with the storage after the call.
  Events are emission-only in the source (no storage effect) and are not
  modelled; no claim mentions them.
-/

set_option maxHeartbeats 1000000

namespace Dpp

/-- ink! `Address`, an opaque comparable identity. -/
abbrev Address := Nat

/-- A 32-byte hash value (`[u8; 32]` in the source), opaque here. -/
abbrev Hash := Nat

/-- Largest value of the `u128` type used by the balance bookkeeping. -/
def U128_MAX : Nat := 2 ^ 128 - 1

/-- Granularity level of the passport. -/
inductive Granularity where
  | ProductClass
  | Batch
  | Item
  deriving DecidableEq, Repr

/-- Technical status (not a product lifecycle stage). -/
inductive PassportStatus where
  | Draft
  | Active
  | Suspended
  | Revoked
  | Archived
  deriving DecidableEq, Repr

/-- On-chain anchor record for a passport token. -/
structure PassportRecord where
  token_id : Nat
  issuer : Address
  dataset_uri : String
  payload_hash : Hash
  dataset_type : String
  version : Nat
  status : PassportStatus
  created_at : Nat
  updated_at : Nat
  granularity : Granularity
  subject_id_hash : Option Hash
  deriving DecidableEq, Repr

/-- Version history entry (immutable, append-only). -/
structure VersionHistory where
  version : Nat
  dataset_uri : String
  payload_hash : Hash
  dataset_type : String
  updated_at : Nat
  updated_by : Address
  deriving DecidableEq, Repr

/-- Error types of the contract. -/
inductive Error where
  | TokenNotFound
  | InvalidInput
  | Unauthorized
  | NotOwner
  | NotApproved
  | NotAllowed
  | PassportRevoked
  | AlreadyRevoked
  deriving DecidableEq, Repr

/-- `ink::storage::Mapping::insert`: pointwise update of the map. -/
def mapInsert {K V : Type} [DecidableEq K] (m : K → Option V) (k : K) (v : V) :
    K → Option V :=
  fun q => if q = k then some v else m q

/-- `ink::storage::Mapping::remove`: pointwise deletion. -/
def mapRemove {K V : Type} [DecidableEq K] (m : K → Option V) (k : K) :
    K → Option V :=
  fun q => if q = k then none else m q

/-- Pointwise update of the `contains` view of a unit-valued mapping. -/
def setFlag (m : Address × Address → Bool) (k : Address × Address) (v : Bool) :
    Address × Address → Bool :=
  fun q => if q = k then v else m q

/-- `u128::checked_add`. -/
def checked_add (a b : Nat) : Option Nat :=
  if a + b ≤ U128_MAX then some (a + b) else none

/-- `u128::checked_sub`. -/
def checked_sub (a b : Nat) : Option Nat :=
  if b ≤ a then some (a - b) else none

/-- The `#[ink(storage)]` struct `DppContractV2`. -/
structure State where
  passports : Nat → Option PassportRecord
  next_token_id : Nat
  version_history : Nat × Nat → Option VersionHistory
  subject_id_to_token : Hash → Option Nat
  token_owner : Nat → Option Address
  token_approvals : Nat → Option Address
  owned_tokens_count : Address → Option Nat
  operator_approvals : Address × Address → Bool

/-- The constructor `DppContractV2::new`. -/
def State.new : State where
  passports := fun _ => none
  next_token_id := 0
  version_history := fun _ => none
  subject_id_to_token := fun _ => none
  token_owner := fun _ => none
  token_approvals := fun _ => none
  owned_tokens_count := fun _ => none
  operator_approvals := fun _ => false

/-- Message `balance_of`. -/
def balance_of (s : State) (owner : Address) : Nat :=
  (s.owned_tokens_count owner).getD 0

/-- Message `owner_of`. -/
def owner_of (s : State) (token_id : Nat) : Option Address :=
  s.token_owner token_id

/-- Message `get_approved`. -/
def get_approved (s : State) (token_id : Nat) : Option Address :=
  s.token_approvals token_id

/-- Message `is_approved_for_all`. -/
def is_approved_for_all (s : State) (owner operator : Address) : Bool :=
  s.operator_approvals (owner, operator)

/-- Message `get_passport`. -/
def get_passport (s : State) (token_id : Nat) : Option PassportRecord :=
  s.passports token_id

/-- Message `get_version`. -/
def get_version (s : State) (token_id version : Nat) : Option VersionHistory :=
  s.version_history (token_id, version)

/-- Message `find_token_by_subject_id`. -/
def find_token_by_subject_id (s : State) (subject_id_hash : Hash) : Option Nat :=
  s.subject_id_to_token subject_id_hash

/-- Internal helper `approved_or_owner`. -/
def approved_or_owner (s : State) (caller : Address) (token_id : Nat)
    (owner : Address) : Bool :=
  caller == owner || s.token_approvals token_id == some caller ||
    is_approved_for_all s owner caller

/-- Internal helper `add_token_to`. -/
def add_token_to (s : State) (to_ : Address) (token_id : Nat) :
    Except Error State :=
  if (s.token_owner token_id).isSome then
    .error .InvalidInput
  else
    match checked_add ((s.owned_tokens_count to_).getD 0) 1 with
    | none => .error .InvalidInput
    | some count =>
        .ok { s with
              owned_tokens_count := mapInsert s.owned_tokens_count to_ count,
              token_owner := mapInsert s.token_owner token_id to_ }

/-- Internal helper `remove_token_from`. -/
def remove_token_from (s : State) (from_ : Address) (token_id : Nat) :
    Except Error State :=
  if !(s.token_owner token_id).isSome then
    .error .TokenNotFound
  else
    match checked_sub ((s.owned_tokens_count from_).getD 0) 1 with
    | none => .error .InvalidInput
    | some count =>
        .ok { s with
              owned_tokens_count := mapInsert s.owned_tokens_count from_ count,
              token_owner := mapRemove s.token_owner token_id }

/-- Message `register_passport`.  The source inserts the passport record
before the fallible `add_token_to` call, increments `next_token_id` only
after it succeeds, and then writes the subject index entry and the
version-1 history entry. -/
def register_passport (s : State) (caller : Address) (block_number : Nat)
    (dataset_uri : String) (payload_hash : Hash) (dataset_type : String)
    (granularity : Granularity) (subject_id_hash : Option Hash) :
    Except Error Nat × State :=
  let token_id := s.next_token_id
  if dataset_uri.isEmpty || dataset_type.isEmpty then
    (.error .InvalidInput, s)
  else
    let record : PassportRecord :=
      { token_id := token_id
        issuer := caller
        dataset_uri := dataset_uri
        payload_hash := payload_hash
        dataset_type := dataset_type
        version := 1
        status := .Active
        created_at := block_number
        updated_at := block_number
        granularity := granularity
        subject_id_hash := subject_id_hash }
    let s1 : State := { s with passports := mapInsert s.passports token_id record }
    match add_token_to s1 caller token_id with
    | .error e => (.error e, s1)
    | .ok s2 =>
        let s3 : State := { s2 with next_token_id := s2.next_token_id + 1 }
        let s4 : State :=
          match subject_id_hash with
          | some subject_hash =>
              { s3 with subject_id_to_token := mapInsert s3.subject_id_to_token subject_hash token_id }
          | none => s3
        let history_entry : VersionHistory :=
          { version := 1
            dataset_uri := dataset_uri
            payload_hash := payload_hash
            dataset_type := dataset_type
            updated_at := block_number
            updated_by := caller }
        let s5 : State := { s4 with version_history := mapInsert s4.version_history (token_id, 1) history_entry }
        (.ok token_id, s5)

/-- Message `update_dataset`.  The reverse-lookup block for the old subject
hash in the source only reads storage (its body is a comment), so it has no
effect here. -/
def update_dataset (s : State) (caller : Address) (block_number : Nat)
    (token_id : Nat) (dataset_uri : String) (payload_hash : Hash)
    (dataset_type : String) (subject_id_hash : Option Hash) :
    Except Error Unit × State :=
  match s.passports token_id with
  | none => (.error .TokenNotFound, s)
  | some record =>
      if record.issuer ≠ caller then
        (.error .Unauthorized, s)
      else if record.status = .Revoked then
        (.error .PassportRevoked, s)
      else if dataset_uri.isEmpty || dataset_type.isEmpty then
        (.error .InvalidInput, s)
      else
        let new_version := record.version + 1
        let record1 : PassportRecord :=
          { record with
            dataset_uri := dataset_uri
            payload_hash := payload_hash
            dataset_type := dataset_type
            subject_id_hash := subject_id_hash
            version := new_version
            updated_at := block_number }
        let s1 : State :=
          match subject_id_hash with
          | some new_hash =>
              { s with subject_id_to_token := mapInsert s.subject_id_to_token new_hash token_id }
          | none => s
        let s2 : State := { s1 with passports := mapInsert s1.passports token_id record1 }
        let history_entry : VersionHistory :=
          { version := new_version
            dataset_uri := dataset_uri
            payload_hash := payload_hash
            dataset_type := dataset_type
            updated_at := block_number
            updated_by := caller }
        let s3 : State := { s2 with version_history := mapInsert s2.version_history (token_id, new_version) history_entry }
        (.ok (), s3)

/-- Message `revoke_passport`.  The reason is carried only by the emitted
event, never stored. -/
def revoke_passport (s : State) (caller : Address) (block_number : Nat)
    (token_id : Nat) (_reason : Option String) : Except Error Unit × State :=
  match s.passports token_id with
  | none => (.error .TokenNotFound, s)
  | some record =>
      if record.issuer ≠ caller then
        (.error .Unauthorized, s)
      else if record.status = .Revoked then
        (.error .AlreadyRevoked, s)
      else
        let record1 : PassportRecord := { record with status := .Revoked, updated_at := block_number }
        (.ok (), { s with passports := mapInsert s.passports token_id record1 })

/-- Message `approve`. -/
def approve (s : State) (caller : Address) (to_ : Address) (token_id : Nat) :
    Except Error Unit × State :=
  match owner_of s token_id with
  | none => (.error .TokenNotFound, s)
  | some owner =>
      if to_ = owner then
        (.error .NotAllowed, s)
      else if caller ≠ owner ∧ is_approved_for_all s owner caller = false then
        (.error .NotApproved, s)
      else
        (.ok (), { s with token_approvals := mapInsert s.token_approvals token_id to_ })

/-- Message `set_approval_for_all`.  Inserting the unit value and removing it
are both pointwise updates of the `contains` view, with the new flag equal to
the `approved` argument. -/
def set_approval_for_all (s : State) (caller operator : Address)
    (approved : Bool) : Except Error Unit × State :=
  if operator = caller then
    (.error .NotAllowed, s)
  else
    (.ok (), { s with operator_approvals := setFlag s.operator_approvals (caller, operator) approved })

/-- Internal helper `transfer_token_from`.  The approval is cleared before the
two fallible balance updates, exactly as in the source. -/
def transfer_token_from (s : State) (caller : Address) (from_ to_ : Address)
    (token_id : Nat) : Except Error Unit × State :=
  match s.passports token_id with
  | none => (.error .TokenNotFound, s)
  | some record =>
      if record.status = .Revoked then
        (.error .PassportRevoked, s)
      else
        match owner_of s token_id with
        | none => (.error .TokenNotFound, s)
        | some owner =>
            if owner ≠ from_ then
              (.error .NotOwner, s)
            else if approved_or_owner s caller token_id owner = false then
              (.error .NotApproved, s)
            else
              let s1 : State := { s with token_approvals := mapRemove s.token_approvals token_id }
              match remove_token_from s1 from_ token_id with
              | .error e => (.error e, s1)
              | .ok s2 =>
                  match add_token_to s2 to_ token_id with
                  | .error e => (.error e, s2)
                  | .ok s3 => (.ok (), s3)

/-- Message `transfer`. -/
def transfer (s : State) (caller : Address) (to_ : Address) (token_id : Nat) :
    Except Error Unit × State :=
  transfer_token_from s caller caller to_ token_id

/-- Message `transfer_from`. -/
def transfer_from (s : State) (caller : Address) (from_ to_ : Address)
    (token_id : Nat) : Except Error Unit × State :=
  transfer_token_from s caller from_ to_ token_id

/-- Message `get_version_history`: versions `1 ..= record.version` in
ascending order, skipping missing entries, empty for an unknown token. -/
def get_version_history (s : State) (token_id : Nat) : List VersionHistory :=
  match s.passports token_id with
  | none => []
  | some record =>
      (List.range record.version).filterMap (fun i => s.version_history (token_id, i + 1))

/-- One public write call, with its full argument vector (the host context
included), used to talk about arbitrary sequences of calls. -/
inductive Call where
  | register (caller block_number : Nat) (dataset_uri : String)
      (payload_hash : Hash) (dataset_type : String)
      (granularity : Granularity) (subject_id_hash : Option Hash)
  | update (caller block_number token_id : Nat) (dataset_uri : String)
      (payload_hash : Hash) (dataset_type : String)
      (subject_id_hash : Option Hash)
  | revoke (caller block_number token_id : Nat) (reason : Option String)
  | approval (caller to_ token_id : Nat)
  | setForAll (caller operator : Nat) (approved : Bool)
  | xfer (caller to_ token_id : Nat)
  | xferFrom (caller from_ to_ token_id : Nat)

/-- The storage after one call (the result value is discarded). -/
def step (s : State) : Call → State
  | .register c b u p d g sh => (register_passport s c b u p d g sh).2
  | .update c b t u p d sh => (update_dataset s c b t u p d sh).2
  | .revoke c b t r => (revoke_passport s c b t r).2
  | .approval c t tok => (approve s c t tok).2
  | .setForAll c op ap => (set_approval_for_all s c op ap).2
  | .xfer c t tok => (transfer s c t tok).2
  | .xferFrom c f t tok => (transfer_from s c f t tok).2

/-- The storage after a sequence of calls. -/
def run (s : State) (calls : List Call) : State :=
  calls.foldl step s

/-- Number of tokens among `0 ..< n` whose entry in the owner map `f` is
`some h`. -/
def ownedCount (f : Nat → Option Address) (n h : Nat) : Nat :=
  ((Finset.range n).filter (fun t => f t = some h)).card

/-- Consistency invariant of the registry storage: tokens `0 ..<
next_token_id` are exactly the registered ones, each has an owner, and the
stored balances agree with the owner map. -/
structure Inv (s : State) : Prop where
  owner_lt : ∀ t, (s.token_owner t).isSome ↔ t < s.next_token_id
  passport_lt : ∀ t, (s.passports t).isSome ↔ t < s.next_token_id
  balance_eq : ∀ h, balance_of s h = ownedCount s.token_owner s.next_token_id h

/-- States reachable by at most `n` calls: consistent, with the token counter
bounded by the number of calls and every version bounded by one more. -/
def Reach (n : Nat) (s : State) : Prop :=
  Inv s ∧ s.next_token_id ≤ n ∧
    ∀ t r, s.passports t = some r → r.version ≤ n + 1

/-- Argument vector of one `update_dataset` call (the token id is supplied
separately). -/
structure UpdArgs where
  caller : Nat
  blk : Nat
  uri : String
  phash : Nat
  dtype : String
  subj : Option Nat
  deriving DecidableEq, Repr

/-- Run a sequence of `update_dataset` calls on one token; `none` as soon as
one of them fails. -/
def updSeq (t : Nat) (s : State) : List UpdArgs → Option State
  | [] => some s
  | a :: rest =>
      match update_dataset s a.caller a.blk t a.uri a.phash a.dtype a.subj with
      | (.ok _, s') => updSeq t s' rest
      | (.error _, _) => none

/-- The version-history entries a sequence of updates is expected to append,
starting at version `v`. -/
def expectedTail (v : Nat) : List UpdArgs → List VersionHistory
  | [] => []
  | a :: rest =>
      { version := v, dataset_uri := a.uri, payload_hash := a.phash,
        dataset_type := a.dtype, updated_at := a.blk, updated_by := a.caller } ::
        expectedTail (v + 1) rest

/-- Whether a call passes `h` as its `subject_id_hash` argument. -/
def suppliesHash (h : Hash) : Call → Bool
  | .register _ _ _ _ _ _ sh => sh == some h
  | .update _ _ _ _ _ _ sh => sh == some h
  | _ => false

/-- An internally inconsistent storage state: token 0 is registered and has
owner 1, but holder 1's balance entry is absent (so reads as 0), and an
approval for identity 2 is outstanding.  Not reachable from `State.new`. -/
def cBadState : State where
  passports := fun t =>
    if t = 0 then
      some { token_id := 0, issuer := 9, dataset_uri := "u", payload_hash := 0,
             dataset_type := "t", version := 1, status := .Active,
             created_at := 0, updated_at := 0, granularity := .Item,
             subject_id_hash := none }
    else none
  next_token_id := 1
  version_history := fun _ => none
  subject_id_to_token := fun _ => none
  token_owner := fun t => if t = 0 then some 1 else none
  token_approvals := fun t => if t = 0 then some 2 else none
  owned_tokens_count := fun _ => none
  operator_approvals := fun _ => false

/-- A small concrete reachable state used by witnesses: the fresh contract
after one successful registration by caller 5. -/
def wState : State :=
  run State.new [Call.register 5 0 "u" 0 "t" Granularity.Batch none]

/-! ### Basic lemmas about the storage primitives -/

@[simp]
theorem mapInsert_self {K V : Type} [DecidableEq K] (m : K → Option V) (k : K)
    (v : V) : mapInsert m k v k = some v := by
  simp [mapInsert]

theorem mapInsert_ne {K V : Type} [DecidableEq K] (m : K → Option V) (k q : K)
    (v : V) (h : q ≠ k) : mapInsert m k v q = m q := by
  simp [mapInsert, h]

@[simp]
theorem mapRemove_self {K V : Type} [DecidableEq K] (m : K → Option V) (k : K) :
    mapRemove m k k = none := by
  simp [mapRemove]

theorem mapRemove_ne {K V : Type} [DecidableEq K] (m : K → Option V) (k q : K)
    (h : q ≠ k) : mapRemove m k q = m q := by
  simp [mapRemove, h]

theorem checked_add_eq_some {a b c : Nat} (h : checked_add a b = some c) :
    a + b ≤ U128_MAX ∧ c = a + b := by
  unfold checked_add at h
  split at h
  · next hle => exact ⟨hle, by injection h with h; exact h.symm⟩
  · exact absurd h (by simp)

theorem checked_sub_eq_some {a b c : Nat} (h : checked_sub a b = some c) :
    b ≤ a ∧ c = a - b := by
  unfold checked_sub at h
  split at h
  · next hle => exact ⟨hle, by injection h with h; exact h.symm⟩
  · exact absurd h (by simp)

/-- Successful `add_token_to`, fully described. -/
theorem add_token_to_ok {s s' : State} {to_ t : Nat}
    (h : add_token_to s to_ t = .ok s') :
    s.token_owner t = none ∧
    (s.owned_tokens_count to_).getD 0 + 1 ≤ U128_MAX ∧
    s' = { s with
           owned_tokens_count :=
             mapInsert s.owned_tokens_count to_ ((s.owned_tokens_count to_).getD 0 + 1),
           token_owner := mapInsert s.token_owner t to_ } := by
  unfold add_token_to at h
  split at h
  · exact absurd h (by simp)
  · next hfree =>
    split at h
    · exact absurd h (by simp)
    · next count heq =>
      obtain ⟨hle, rfl⟩ := checked_add_eq_some heq
      refine ⟨Option.not_isSome_iff_eq_none.mp hfree, hle, ?_⟩
      injection h with h
      exact h.symm

/-- `add_token_to` succeeds under the stated preconditions. -/
theorem add_token_to_eq_ok (s : State) (to_ t : Nat)
    (hfree : s.token_owner t = none)
    (hbal : (s.owned_tokens_count to_).getD 0 + 1 ≤ U128_MAX) :
    add_token_to s to_ t = .ok { s with
      owned_tokens_count :=
        mapInsert s.owned_tokens_count to_ ((s.owned_tokens_count to_).getD 0 + 1),
      token_owner := mapInsert s.token_owner t to_ } := by
  unfold add_token_to checked_add
  simp [hfree, hbal]

/-- Successful `remove_token_from`, fully described. -/
theorem remove_token_from_ok {s s' : State} {from_ t : Nat}
    (h : remove_token_from s from_ t = .ok s') :
    (s.token_owner t).isSome ∧
    1 ≤ (s.owned_tokens_count from_).getD 0 ∧
    s' = { s with
           owned_tokens_count :=
             mapInsert s.owned_tokens_count from_ ((s.owned_tokens_count from_).getD 0 - 1),
           token_owner := mapRemove s.token_owner t } := by
  unfold remove_token_from at h
  split at h
  · exact absurd h (by simp)
  · next hown =>
    split at h
    · exact absurd h (by simp)
    · next count heq =>
      obtain ⟨hle, rfl⟩ := checked_sub_eq_some heq
      refine ⟨by simpa [Option.isSome_iff_ne_none] using hown, hle, ?_⟩
      injection h with h
      exact h.symm

/-- `remove_token_from` succeeds under the stated preconditions. -/
theorem remove_token_from_eq_ok (s : State) (from_ t : Nat)
    (hown : (s.token_owner t).isSome)
    (hbal : 1 ≤ (s.owned_tokens_count from_).getD 0) :
    remove_token_from s from_ t = .ok { s with
      owned_tokens_count :=
        mapInsert s.owned_tokens_count from_ ((s.owned_tokens_count from_).getD 0 - 1),
      token_owner := mapRemove s.token_owner t } := by
  unfold remove_token_from checked_sub
  simp [hown, hbal]

/-! ### Counting owned tokens -/

theorem ownedCount_le (f : Nat → Option Address) (n h : Nat) :
    ownedCount f n h ≤ n := by
  calc ((Finset.range n).filter (fun t => f t = some h)).card
      ≤ (Finset.range n).card := Finset.card_filter_le _ _
    _ = n := Finset.card_range n

theorem ownedCount_pos (f : Nat → Option Address) {n h t : Nat}
    (ht : t < n) (hf : f t = some h) : 1 ≤ ownedCount f n h := by
  have : t ∈ (Finset.range n).filter (fun x => f x = some h) := by
    simp [Finset.mem_filter, Finset.mem_range, ht, hf]
  exact Finset.card_pos.mpr ⟨t, this⟩

theorem ownedCount_le_sub_one (f : Nat → Option Address) {n h t a : Nat}
    (ht : t < n) (hf : f t = some a) (hne : a ≠ h) :
    ownedCount f n h ≤ n - 1 := by
  have hsub : (Finset.range n).filter (fun x => f x = some h) ⊆
      (Finset.range n).erase t := by
    rw [Finset.subset_erase]
    refine ⟨Finset.filter_subset _ _, ?_⟩
    simp [Finset.mem_filter, hf, hne]
  calc ((Finset.range n).filter (fun x => f x = some h)).card
      ≤ ((Finset.range n).erase t).card := Finset.card_le_card hsub
    _ = n - 1 := by rw [Finset.card_erase_of_mem (Finset.mem_range.mpr ht), Finset.card_range]

/-- Updating the owner map at one point without changing membership in the
fibre of `h` leaves the count unchanged. -/
theorem ownedCount_update_same (f g : Nat → Option Address) (n t h : Nat)
    (hq : ∀ x, x ≠ t → g x = f x) (hiff : g t = some h ↔ f t = some h) :
    ownedCount g n h = ownedCount f n h := by
  unfold ownedCount
  congr 1
  ext x
  by_cases hx : x = t
  · subst hx
    simp only [Finset.mem_filter]
    exact and_congr_right fun _ => hiff
  · simp only [Finset.mem_filter]
    rw [hq x hx]

/-- Updating the owner map at a point that enters the fibre of `h` adds one
to the count. -/
theorem ownedCount_update_add (f g : Nat → Option Address) {n t h : Nat}
    (htn : t < n) (hq : ∀ x, x ≠ t → g x = f x) (hgt : g t = some h)
    (hft : f t ≠ some h) :
    ownedCount g n h = ownedCount f n h + 1 := by
  unfold ownedCount
  have hset : (Finset.range n).filter (fun x => g x = some h) =
      insert t ((Finset.range n).filter (fun x => f x = some h)) := by
    ext x
    by_cases hx : x = t
    · subst hx
      simp [Finset.mem_filter, Finset.mem_range, htn, hgt]
    · simp only [Finset.mem_filter, Finset.mem_insert, hx, false_or]
      rw [hq x hx]
  rw [hset, Finset.card_insert_of_not_mem (by simp [Finset.mem_filter, hft])]

/-- Updating the owner map at a point that leaves the fibre of `h` removes
one from the count. -/
theorem ownedCount_update_sub (f g : Nat → Option Address) {n t h : Nat}
    (hq : ∀ x, x ≠ t → g x = f x) (hgt : g t ≠ some h) (hft : f t = some h)
    (htn : t < n) :
    ownedCount f n h = ownedCount g n h + 1 := by
  unfold ownedCount
  have hset : (Finset.range n).filter (fun x => f x = some h) =
      insert t ((Finset.range n).filter (fun x => g x = some h)) := by
    ext x
    by_cases hx : x = t
    · subst hx
      simp [Finset.mem_filter, Finset.mem_range, htn, hft]
    · simp only [Finset.mem_filter, Finset.mem_insert, hx, false_or]
      rw [hq x hx]
  rw [hset, Finset.card_insert_of_not_mem (by simp [Finset.mem_filter, hgt])]

/-- Extending the range by one adds the new index's own contribution. -/
theorem ownedCount_succ (f : Nat → Option Address) (n h : Nat) :
    ownedCount f (n + 1) h =
      ownedCount f n h + (if f n = some h then 1 else 0) := by
  unfold ownedCount
  rw [Finset.range_succ, Finset.filter_insert]
  split
  · rw [Finset.card_insert_of_not_mem (by simp [Finset.mem_filter])]
  · rw [Nat.add_zero]

/-! ### Consequences of the invariant -/

theorem Inv.balance_le {s : State} (hInv : Inv s) (h : Address) :
    balance_of s h ≤ s.next_token_id := by
  rw [hInv.balance_eq]
  exact ownedCount_le _ _ _

theorem Inv.owner_at_next {s : State} (hInv : Inv s) :
    s.token_owner s.next_token_id = none := by
  have := hInv.owner_lt s.next_token_id
  simp only [Nat.lt_irrefl, iff_false] at this
  exact Option.not_isSome_iff_eq_none.mp this

theorem Inv.lt_of_owner {s : State} (hInv : Inv s) {t h : Nat}
    (hown : s.token_owner t = some h) : t < s.next_token_id := by
  rw [← hInv.owner_lt]
  simp [hown]

theorem Inv.balance_pos {s : State} (hInv : Inv s) {t h : Nat}
    (hown : s.token_owner t = some h) : 1 ≤ balance_of s h := by
  rw [hInv.balance_eq]
  exact ownedCount_pos _ (hInv.lt_of_owner hown) hown

theorem Inv.balance_lt {s : State} (hInv : Inv s) {t a h : Nat}
    (hown : s.token_owner t = some a) (hne : a ≠ h) :
    balance_of s h ≤ s.next_token_id - 1 := by
  rw [hInv.balance_eq]
  exact ownedCount_le_sub_one _ (hInv.lt_of_owner hown) hown hne

/-! ### Shapes of the successful write operations -/

/-- On a consistent state with a free `u128` token id, `register_passport`
with non-empty strings succeeds and produces exactly this state. -/
theorem register_ok {s : State} (hInv : Inv s) (hcap : s.next_token_id < U128_MAX)
    (c b : Nat) (u : String) (p : Nat) (d : String) (g : Granularity)
    (sh : Option Hash) (hu : u.isEmpty = false) (hd : d.isEmpty = false) :
    register_passport s c b u p d g sh =
      (.ok s.next_token_id,
       { passports := mapInsert s.passports s.next_token_id
           { token_id := s.next_token_id, issuer := c, dataset_uri := u,
             payload_hash := p, dataset_type := d, version := 1,
             status := .Active, created_at := b, updated_at := b,
             granularity := g, subject_id_hash := sh },
         next_token_id := s.next_token_id + 1,
         version_history := mapInsert s.version_history (s.next_token_id, 1)
           { version := 1, dataset_uri := u, payload_hash := p,
             dataset_type := d, updated_at := b, updated_by := c },
         subject_id_to_token :=
           match sh with
           | some hh => mapInsert s.subject_id_to_token hh s.next_token_id
           | none => s.subject_id_to_token,
         token_owner := mapInsert s.token_owner s.next_token_id c,
         token_approvals := s.token_approvals,
         owned_tokens_count := mapInsert s.owned_tokens_count c (balance_of s c + 1),
         operator_approvals := s.operator_approvals }) := by
  have hbal : (s.owned_tokens_count c).getD 0 + 1 ≤ U128_MAX := by
    have := hInv.balance_le c
    unfold balance_of at this
    omega
  have hfree : s.token_owner s.next_token_id = none := hInv.owner_at_next
  unfold register_passport
  simp only [hu, hd, Bool.or_self, Bool.false_eq_true, if_false]
  rw [add_token_to_eq_ok _ c s.next_token_id]
  · cases sh <;> rfl
  · exact hfree
  · exact hbal

/-- On a consistent state, a transfer whose guards all pass succeeds and
produces exactly this state. -/
theorem transfer_ok {s : State} (hInv : Inv s) (hcap : s.next_token_id ≤ U128_MAX)
    {caller from_ to_ t : Nat} {r : PassportRecord}
    (hrec : s.passports t = some r) (hst : r.status ≠ .Revoked)
    (hown : s.token_owner t = some from_)
    (happ : approved_or_owner s caller t from_ = true) :
    transfer_token_from s caller from_ to_ t =
      (.ok (),
       { passports := s.passports,
         next_token_id := s.next_token_id,
         version_history := s.version_history,
         subject_id_to_token := s.subject_id_to_token,
         token_owner := mapInsert (mapRemove s.token_owner t) t to_,
         token_approvals := mapRemove s.token_approvals t,
         owned_tokens_count :=
           mapInsert (mapInsert s.owned_tokens_count from_ (balance_of s from_ - 1)) to_
             ((mapInsert s.owned_tokens_count from_ (balance_of s from_ - 1) to_).getD 0 + 1),
         operator_approvals := s.operator_approvals }) := by
  have hble : 1 ≤ (s.owned_tokens_count from_).getD 0 := hInv.balance_pos hown
  have htn : t < s.next_token_id := hInv.lt_of_owner hown
  have hchk : (mapInsert s.owned_tokens_count from_ (balance_of s from_ - 1) to_).getD 0 + 1
      ≤ U128_MAX := by
    have hb := hInv.balance_le from_
    by_cases hft : to_ = from_
    · subst hft
      rw [mapInsert_self, Option.getD_some]
      unfold balance_of at hb ⊢
      omega
    · rw [mapInsert_ne _ _ _ _ hft]
      have hlt := hInv.balance_lt hown (fun hh => hft hh.symm)
      have hpos : 0 < s.next_token_id := Nat.lt_of_le_of_lt (Nat.zero_le t) htn
      unfold balance_of at hlt
      omega
  have hrm := remove_token_from_eq_ok
    { s with token_approvals := mapRemove s.token_approvals t } from_ t
    (by simp only []; rw [hown]; rfl) hble
  unfold transfer_token_from
  rw [hrec]
  show (if r.status = .Revoked then _ else _) = _
  rw [if_neg hst]
  show (match owner_of s t with | none => _ | some owner => _) = _
  rw [show owner_of s t = some from_ from hown]
  show (if from_ ≠ from_ then _ else _) = _
  rw [if_neg (by simp)]
  show (if approved_or_owner s caller t from_ = false then _ else _) = _
  rw [happ]
  rw [if_neg (by simp)]
  show (match remove_token_from { s with token_approvals := mapRemove s.token_approvals t } from_ t with
        | .error e => _ | .ok s2 => _) = _
  rw [hrm]
  show (match add_token_to _ to_ t with | .error e => _ | .ok s3 => _) = _
  rw [add_token_to_eq_ok _ to_ t (by simp only []; exact mapRemove_self _ _) hchk]
  rfl

/-- A permitted `update_dataset` succeeds and produces exactly this state. -/
theorem update_ok {s : State} {t : Nat} {r : PassportRecord}
    (hrec : s.passports t = some r) (c b : Nat) (u : String) (p : Nat)
    (d : String) (sh : Option Hash) (hiss : r.issuer = c)
    (hst : r.status ≠ .Revoked) (hu : u.isEmpty = false)
    (hd : d.isEmpty = false) :
    update_dataset s c b t u p d sh =
      (.ok (),
       { passports := mapInsert s.passports t
           { r with
             dataset_uri := u, payload_hash := p, dataset_type := d,
             subject_id_hash := sh, version := r.version + 1, updated_at := b },
         next_token_id := s.next_token_id,
         version_history := mapInsert s.version_history (t, r.version + 1)
           { version := r.version + 1, dataset_uri := u, payload_hash := p,
             dataset_type := d, updated_at := b, updated_by := c },
         subject_id_to_token :=
           match sh with
           | some hh => mapInsert s.subject_id_to_token hh t
           | none => s.subject_id_to_token,
         token_owner := s.token_owner,
         token_approvals := s.token_approvals,
         owned_tokens_count := s.owned_tokens_count,
         operator_approvals := s.operator_approvals }) := by
  unfold update_dataset
  rw [hrec]
  show (if r.issuer ≠ c then _ else _) = _
  rw [if_neg (by simp [hiss])]
  show (if r.status = .Revoked then _ else _) = _
  rw [if_neg hst]
  show (if u.isEmpty || d.isEmpty then _ else _) = _
  rw [if_neg (by simp [hu, hd])]
  cases sh <;> rfl

/-- A permitted `revoke_passport` succeeds and produces exactly this state. -/
theorem revoke_ok {s : State} {t : Nat} {r : PassportRecord}
    (hrec : s.passports t = some r) (c b : Nat) (reason : Option String)
    (hiss : r.issuer = c) (hst : r.status ≠ .Revoked) :
    revoke_passport s c b t reason =
      (.ok (),
       { s with
         passports := mapInsert s.passports t { r with status := .Revoked, updated_at := b } }) := by
  unfold revoke_passport
  rw [hrec]
  show (if r.issuer ≠ c then _ else _) = _
  rw [if_neg (by simp [hiss])]
  show (if r.status = .Revoked then _ else _) = _
  rw [if_neg hst]

/-! ### Every error branch of the guarded operations leaves storage intact -/

theorem update_err {s s' : State} {c b t p : Nat} {u d : String}
    {sh : Option Hash} {e : Error}
    (h : update_dataset s c b t u p d sh = (.error e, s')) : s' = s := by
  unfold update_dataset at h
  split at h
  · exact (congrArg Prod.snd h).symm
  · split_ifs at h
    · exact (congrArg Prod.snd h).symm
    · exact (congrArg Prod.snd h).symm
    · exact (congrArg Prod.snd h).symm
    · have := congrArg Prod.fst h
      simp at this

theorem revoke_err {s s' : State} {c b t : Nat} {reason : Option String}
    {e : Error} (h : revoke_passport s c b t reason = (.error e, s')) :
    s' = s := by
  unfold revoke_passport at h
  split at h
  · exact (congrArg Prod.snd h).symm
  · split_ifs at h
    · exact (congrArg Prod.snd h).symm
    · exact (congrArg Prod.snd h).symm
    · have := congrArg Prod.fst h
      simp at this

theorem approve_err {s s' : State} {c t tok : Nat} {e : Error}
    (h : approve s c t tok = (.error e, s')) : s' = s := by
  unfold approve at h
  split at h
  · exact (congrArg Prod.snd h).symm
  · split_ifs at h
    · exact (congrArg Prod.snd h).symm
    · exact (congrArg Prod.snd h).symm
    · have := congrArg Prod.fst h
      simp at this

theorem set_approval_for_all_err {s s' : State} {c op : Nat} {ap : Bool}
    {e : Error} (h : set_approval_for_all s c op ap = (.error e, s')) :
    s' = s := by
  unfold set_approval_for_all at h
  split_ifs at h
  · exact (congrArg Prod.snd h).symm
  · have := congrArg Prod.fst h
    simp at this

/-! ### Inversion of the successful operations -/

theorem register_invalid (s : State) (c b : Nat) {u : String} (p : Nat)
    {d : String} (g : Granularity) (sh : Option Hash)
    (hc : (u.isEmpty || d.isEmpty) = true) :
    register_passport s c b u p d g sh = (.error .InvalidInput, s) := by
  unfold register_passport
  rw [if_pos hc]

/-- A successful registration returns the pre-state counter and bumps it by
exactly one; this needs no consistency assumption. -/
theorem register_ok_inv {s s' : State} {c b p v : Nat} {u d : String}
    {g : Granularity} {sh : Option Hash}
    (h : register_passport s c b u p d g sh = (.ok v, s')) :
    v = s.next_token_id ∧ s'.next_token_id = s.next_token_id + 1 := by
  cases sh with
  | none =>
      unfold register_passport at h
      dsimp only at h
      split at h
      · exact absurd (congrArg Prod.fst h) (by simp)
      · split at h
        · exact absurd (congrArg Prod.fst h) (by simp)
        · next s2 heq =>
          obtain ⟨-, -, rfl⟩ := add_token_to_ok heq
          refine ⟨by simpa using (congrArg Prod.fst h).symm, ?_⟩
          exact (congrArg State.next_token_id (congrArg Prod.snd h)).symm
  | some hh =>
      unfold register_passport at h
      dsimp only at h
      split at h
      · exact absurd (congrArg Prod.fst h) (by simp)
      · split at h
        · exact absurd (congrArg Prod.fst h) (by simp)
        · next s2 heq =>
          obtain ⟨-, -, rfl⟩ := add_token_to_ok heq
          refine ⟨by simpa using (congrArg Prod.fst h).symm, ?_⟩
          exact (congrArg State.next_token_id (congrArg Prod.snd h)).symm

/-- Any failing registration leaves the token counter unchanged (the counter
is bumped only after `add_token_to` succeeds). -/
theorem register_err_next {s s' : State} {c b p : Nat} {u d : String}
    {g : Granularity} {sh : Option Hash} {e : Error}
    (h : register_passport s c b u p d g sh = (.error e, s')) :
    s'.next_token_id = s.next_token_id := by
  cases sh with
  | none =>
      unfold register_passport at h
      dsimp only at h
      split at h
      · exact (congrArg State.next_token_id (congrArg Prod.snd h)).symm
      · split at h
        · exact (congrArg State.next_token_id (congrArg Prod.snd h)).symm
        · exact absurd (congrArg Prod.fst h) (by simp)
  | some hh =>
      unfold register_passport at h
      dsimp only at h
      split at h
      · exact (congrArg State.next_token_id (congrArg Prod.snd h)).symm
      · split at h
        · exact (congrArg State.next_token_id (congrArg Prod.snd h)).symm
        · exact absurd (congrArg Prod.fst h) (by simp)

theorem update_ok_cond {s s' : State} {c b t p : Nat} {u d : String}
    {sh : Option Hash} {vv : Unit}
    (h : update_dataset s c b t u p d sh = (.ok vv, s')) :
    ∃ r, s.passports t = some r ∧ r.issuer = c ∧ r.status ≠ .Revoked ∧
      u.isEmpty = false ∧ d.isEmpty = false := by
  unfold update_dataset at h
  split at h
  · exact absurd (congrArg Prod.fst h) (by simp)
  · next r hrec =>
    split_ifs at h with h1 h2 h3
    · exact absurd (congrArg Prod.fst h) (by simp)
    · exact absurd (congrArg Prod.fst h) (by simp)
    · exact absurd (congrArg Prod.fst h) (by simp)
    · simp only [Bool.or_eq_true, not_or, Bool.not_eq_true] at h3
      exact ⟨r, hrec, not_not.mp h1, h2, h3.1, h3.2⟩

theorem revoke_ok_cond {s s' : State} {c b t : Nat} {reason : Option String}
    {vv : Unit} (h : revoke_passport s c b t reason = (.ok vv, s')) :
    ∃ r, s.passports t = some r ∧ r.issuer = c ∧ r.status ≠ .Revoked := by
  unfold revoke_passport at h
  split at h
  · exact absurd (congrArg Prod.fst h) (by simp)
  · next r hrec =>
    split_ifs at h with h1 h2
    · exact absurd (congrArg Prod.fst h) (by simp)
    · exact absurd (congrArg Prod.fst h) (by simp)
    · exact ⟨r, hrec, not_not.mp h1, h2⟩

/-- `approve` touches only the approval map. -/
theorem approve_preserves (s : State) (c t tok : Nat) :
    ((approve s c t tok).2).passports = s.passports ∧
    ((approve s c t tok).2).next_token_id = s.next_token_id ∧
    ((approve s c t tok).2).token_owner = s.token_owner ∧
    ((approve s c t tok).2).owned_tokens_count = s.owned_tokens_count ∧
    ((approve s c t tok).2).version_history = s.version_history ∧
    ((approve s c t tok).2).subject_id_to_token = s.subject_id_to_token := by
  unfold approve
  split
  · exact ⟨rfl, rfl, rfl, rfl, rfl, rfl⟩
  · split_ifs <;> exact ⟨rfl, rfl, rfl, rfl, rfl, rfl⟩

/-- `set_approval_for_all` touches only the operator-approval map. -/
theorem set_approval_preserves (s : State) (c op : Nat) (ap : Bool) :
    ((set_approval_for_all s c op ap).2).passports = s.passports ∧
    ((set_approval_for_all s c op ap).2).next_token_id = s.next_token_id ∧
    ((set_approval_for_all s c op ap).2).token_owner = s.token_owner ∧
    ((set_approval_for_all s c op ap).2).owned_tokens_count = s.owned_tokens_count ∧
    ((set_approval_for_all s c op ap).2).version_history = s.version_history ∧
    ((set_approval_for_all s c op ap).2).subject_id_to_token = s.subject_id_to_token := by
  unfold set_approval_for_all
  split_ifs <;> exact ⟨rfl, rfl, rfl, rfl, rfl, rfl⟩

/-- A transfer either fails before any mutation or passes all four guards. -/
theorem transfer_guards (s : State) (caller from_ to_ t : Nat) :
    (∃ e, transfer_token_from s caller from_ to_ t = (.error e, s)) ∨
    (∃ r, s.passports t = some r ∧ r.status ≠ .Revoked ∧
      s.token_owner t = some from_ ∧
      approved_or_owner s caller t from_ = true) := by
  unfold transfer_token_from
  split
  · exact Or.inl ⟨_, rfl⟩
  · next r hrec =>
    split_ifs with hst
    · exact Or.inl ⟨_, rfl⟩
    · split
      · exact Or.inl ⟨_, rfl⟩
      · next ow hown =>
        split_ifs with howf happ
        · exact Or.inl ⟨_, rfl⟩
        · exact Or.inl ⟨_, rfl⟩
        · right
          have howf' : ow = from_ := not_not.mp howf
          subst howf'
          refine ⟨r, hrec, hst, hown, ?_⟩
          cases ha : approved_or_owner s caller t ow
          · exact absurd ha happ
          · rfl

/-! ### Preservation of the reachability invariant -/

theorem ownedCount_update_out (f g : Nat → Option Address) {n t : Nat} (h : Nat)
    (htn : n ≤ t) (hq : ∀ x, x ≠ t → g x = f x) :
    ownedCount g n h = ownedCount f n h := by
  unfold ownedCount
  congr 1
  ext x
  simp only [Finset.mem_filter, Finset.mem_range]
  constructor
  · rintro ⟨hx, hgx⟩
    exact ⟨hx, by rw [← hq x (by omega)]; exact hgx⟩
  · rintro ⟨hx, hfx⟩
    exact ⟨hx, by rw [hq x (by omega)]; exact hfx⟩

theorem reach_mono {n : Nat} {s : State} (h : Reach n s) : Reach (n + 1) s := by
  obtain ⟨hInv, hle, hver⟩ := h
  exact ⟨hInv, by omega, fun t r hr => by have := hver t r hr; omega⟩

/-- States agreeing on the four invariant-relevant stores satisfy the same
reachability predicate. -/
theorem Reach_congr {n : Nat} {s s' : State} (h : Reach n s)
    (hp : s'.passports = s.passports) (hn : s'.next_token_id = s.next_token_id)
    (ho : s'.token_owner = s.token_owner)
    (hc : s'.owned_tokens_count = s.owned_tokens_count) : Reach n s' := by
  obtain ⟨⟨h1, h2, h3⟩, h4, h5⟩ := h
  refine ⟨⟨?_, ?_, ?_⟩, ?_, ?_⟩
  · intro t
    rw [ho, hn]
    exact h1 t
  · intro t
    rw [hp, hn]
    exact h2 t
  · intro a
    unfold balance_of
    rw [hc, ho, hn]
    exact h3 a
  · rw [hn]
    exact h4
  · intro t r hr
    rw [hp] at hr
    exact h5 t r hr

/-- A transfer (successful or not) preserves reachability. -/
theorem reach_transfer {n : Nat} {s : State} (h : Reach n s)
    (hcap' : s.next_token_id < U128_MAX) (caller from_ to_ tok : Nat) :
    Reach (n + 1) (transfer_token_from s caller from_ to_ tok).2 := by
  obtain ⟨hInv, hle, hver⟩ := h
  rcases transfer_guards s caller from_ to_ tok with ⟨e, herr⟩ | ⟨r, hrec, hst, hown, happ⟩
  · rw [herr]
    exact reach_mono ⟨hInv, hle, hver⟩
  · have htn : tok < s.next_token_id := hInv.lt_of_owner hown
    have hbpos : 1 ≤ balance_of s from_ := hInv.balance_pos hown
    rw [transfer_ok hInv (le_of_lt hcap') hrec hst hown happ]
    have howner : ∀ x, x ≠ tok →
        mapInsert (mapRemove s.token_owner tok) tok to_ x = s.token_owner x := by
      intro x hx
      rw [mapInsert_ne _ _ _ _ hx, mapRemove_ne _ _ _ hx]
    refine ⟨⟨?_, hInv.passport_lt, ?_⟩, ?_, ?_⟩
    · intro x
      by_cases hx : x = tok
      · subst hx
        show (mapInsert (mapRemove s.token_owner x) x to_ x).isSome ↔ _
        rw [mapInsert_self]
        simpa using htn
      · show (mapInsert (mapRemove s.token_owner tok) tok to_ x).isSome ↔ _
        rw [howner x hx]
        exact hInv.owner_lt x
    · intro a
      show (mapInsert (mapInsert s.owned_tokens_count from_ (balance_of s from_ - 1)) to_
          ((mapInsert s.owned_tokens_count from_ (balance_of s from_ - 1) to_).getD 0 + 1) a).getD 0
        = ownedCount (mapInsert (mapRemove s.token_owner tok) tok to_) s.next_token_id a
      by_cases hft : to_ = from_
      · subst hft
        rw [ownedCount_update_same s.token_owner
          (mapInsert (mapRemove s.token_owner tok) tok to_) s.next_token_id tok a howner
          (by rw [mapInsert_self, hown])]
        rw [show mapInsert s.owned_tokens_count to_ (balance_of s to_ - 1) to_ =
            some (balance_of s to_ - 1) from mapInsert_self _ _ _, Option.getD_some]
        by_cases ha : a = to_
        · subst ha
          rw [show mapInsert (mapInsert s.owned_tokens_count a (balance_of s a - 1)) a
              (balance_of s a - 1 + 1) a = some (balance_of s a - 1 + 1) from mapInsert_self _ _ _,
            Option.getD_some, ← hInv.balance_eq a]
          omega
        · rw [mapInsert_ne _ _ _ _ ha, mapInsert_ne _ _ _ _ ha, ← hInv.balance_eq a]
          rfl
      · have hmid : mapInsert s.owned_tokens_count from_ (balance_of s from_ - 1) to_ =
            s.owned_tokens_count to_ := mapInsert_ne _ _ _ _ hft
        rw [hmid]
        by_cases hat : a = to_
        · subst hat
          rw [show mapInsert (mapInsert s.owned_tokens_count from_ (balance_of s from_ - 1)) a
              ((s.owned_tokens_count a).getD 0 + 1) a = some ((s.owned_tokens_count a).getD 0 + 1)
              from mapInsert_self _ _ _, Option.getD_some]
          rw [ownedCount_update_add s.token_owner
            (mapInsert (mapRemove s.token_owner tok) tok a) htn howner
            (mapInsert_self _ _ _)
            (by rw [hown]; intro heq; exact hft (Option.some.inj heq).symm)]
          rw [← hInv.balance_eq a]
          rfl
        · by_cases haf : a = from_
          · subst haf
            rw [mapInsert_ne _ _ _ _ (fun hh => hat hh)]
            rw [show mapInsert s.owned_tokens_count a (balance_of s a - 1) a =
                some (balance_of s a - 1) from mapInsert_self _ _ _, Option.getD_some]
            have hsub := ownedCount_update_sub s.token_owner
              (mapInsert (mapRemove s.token_owner tok) tok to_) howner
              (by rw [mapInsert_self]; intro heq; exact hft (Option.some.inj heq)) hown htn
            rw [← hInv.balance_eq a] at hsub
            omega
          · rw [mapInsert_ne _ _ _ _ hat, mapInsert_ne _ _ _ _ haf]
            rw [ownedCount_update_same s.token_owner
              (mapInsert (mapRemove s.token_owner tok) tok to_) s.next_token_id tok a howner ?hiff]
            case hiff =>
              rw [mapInsert_self, hown]
              constructor
              · intro heq
                exact absurd (Option.some.inj heq).symm hat
              · intro heq
                exact absurd (Option.some.inj heq).symm haf
            exact hInv.balance_eq a
    · show s.next_token_id ≤ n + 1
      omega
    · intro x rx hrx
      have := hver x rx hrx
      omega

/-- One call preserves reachability (with one more call's worth of budget),
as long as fewer than `u128::MAX` calls happened before. -/
theorem reach_step {n : Nat} {s : State} (h : Reach n s) (hcap : n < U128_MAX)
    (c : Call) : Reach (n + 1) (step s c) := by
  obtain ⟨hInv, hle, hver⟩ := h
  have hcap' : s.next_token_id < U128_MAX := lt_of_le_of_lt hle hcap
  cases c with
  | register c b u p d g sh =>
      show Reach (n + 1) (register_passport s c b u p d g sh).2
      by_cases hc : (u.isEmpty || d.isEmpty) = true
      · rw [register_invalid s c b p g sh hc]
        exact reach_mono ⟨hInv, hle, hver⟩
      · simp only [Bool.or_eq_true, not_or, Bool.not_eq_true] at hc
        rw [register_ok hInv hcap' c b u p d g sh hc.1 hc.2]
        refine ⟨⟨?_, ?_, ?_⟩, ?_, ?_⟩
        · intro t
          dsimp only
          by_cases ht : t = s.next_token_id
          · rw [ht, mapInsert_self]
            simp
          · rw [mapInsert_ne _ _ _ _ ht, hInv.owner_lt t]
            omega
        · intro t
          dsimp only
          by_cases ht : t = s.next_token_id
          · rw [ht, mapInsert_self]
            simp
          · rw [mapInsert_ne _ _ _ _ ht, hInv.passport_lt t]
            omega
        · intro a
          show (mapInsert s.owned_tokens_count c (balance_of s c + 1) a).getD 0 =
            ownedCount (mapInsert s.token_owner s.next_token_id c) (s.next_token_id + 1) a
          rw [ownedCount_succ]
          rw [ownedCount_update_out _ _ a (Nat.le_refl _)
            (fun x hx => mapInsert_ne _ _ _ _ hx)]
          rw [mapInsert_self]
          by_cases ha : a = c
          · rw [ha, mapInsert_self, Option.getD_some, if_pos rfl, hInv.balance_eq c]
          · rw [mapInsert_ne _ _ _ _ ha, if_neg (by simp [Ne.symm ha])]
            rw [← hInv.balance_eq a]
            rfl
        · show s.next_token_id + 1 ≤ n + 1
          omega
        · intro t r hr
          dsimp only at hr
          show r.version ≤ n + 1 + 1
          by_cases ht : t = s.next_token_id
          · rw [ht, mapInsert_self] at hr
            injection hr with hr
            rw [← hr]
            dsimp only
            omega
          · rw [mapInsert_ne _ _ _ _ ht] at hr
            have := hver t r hr
            omega
  | update c b t u p d sh =>
      show Reach (n + 1) (update_dataset s c b t u p d sh).2
      rcases hres : update_dataset s c b t u p d sh with ⟨res, s2⟩
      cases res with
      | error e =>
          have hs2 : s2 = s := update_err hres
          subst hs2
          exact reach_mono ⟨hInv, hle, hver⟩
      | ok v =>
          obtain ⟨r, hrec, hiss, hst, hu, hd⟩ := update_ok_cond hres
          have hshape := update_ok hrec c b u p d sh hiss hst hu hd
          rw [hres] at hshape
          have hs2 := congrArg Prod.snd hshape
          dsimp only at hs2
          subst hs2
          have htn : t < s.next_token_id := by
            rw [← hInv.passport_lt t, hrec]
            rfl
          refine ⟨⟨?_, ?_, ?_⟩, ?_, ?_⟩
          · intro x
            exact hInv.owner_lt x
          · intro x
            dsimp only
            by_cases hx : x = t
            · rw [hx, mapInsert_self]
              simp [htn]
            · rw [mapInsert_ne _ _ _ _ hx]
              exact hInv.passport_lt x
          · intro a
            exact hInv.balance_eq a
          · show s.next_token_id ≤ n + 1
            omega
          · intro x rx hrx
            dsimp only at hrx
            show rx.version ≤ n + 1 + 1
            by_cases hx : x = t
            · rw [hx, mapInsert_self] at hrx
              injection hrx with hrx
              rw [← hrx]
              dsimp only
              have := hver t r hrec
              omega
            · rw [mapInsert_ne _ _ _ _ hx] at hrx
              have := hver x rx hrx
              omega
  | revoke c b t reason =>
      show Reach (n + 1) (revoke_passport s c b t reason).2
      rcases hres : revoke_passport s c b t reason with ⟨res, s2⟩
      cases res with
      | error e =>
          have hs2 : s2 = s := revoke_err hres
          subst hs2
          exact reach_mono ⟨hInv, hle, hver⟩
      | ok v =>
          obtain ⟨r, hrec, hiss, hst⟩ := revoke_ok_cond hres
          have hshape := revoke_ok hrec c b reason hiss hst
          rw [hres] at hshape
          have hs2 := congrArg Prod.snd hshape
          dsimp only at hs2
          subst hs2
          have htn : t < s.next_token_id := by
            rw [← hInv.passport_lt t, hrec]
            rfl
          refine ⟨⟨?_, ?_, ?_⟩, ?_, ?_⟩
          · intro x
            exact hInv.owner_lt x
          · intro x
            dsimp only
            by_cases hx : x = t
            · rw [hx, mapInsert_self]
              simp [htn]
            · rw [mapInsert_ne _ _ _ _ hx]
              exact hInv.passport_lt x
          · intro a
            exact hInv.balance_eq a
          · show s.next_token_id ≤ n + 1
            omega
          · intro x rx hrx
            dsimp only at hrx
            show rx.version ≤ n + 1 + 1
            by_cases hx : x = t
            · rw [hx, mapInsert_self] at hrx
              injection hrx with hrx
              rw [← hrx]
              dsimp only
              have := hver t r hrec
              omega
            · rw [mapInsert_ne _ _ _ _ hx] at hrx
              have := hver x rx hrx
              omega
  | approval c t tok =>
      show Reach (n + 1) (approve s c t tok).2
      obtain ⟨hp, hn, ho, hc, -, -⟩ := approve_preserves s c t tok
      exact Reach_congr (reach_mono ⟨hInv, hle, hver⟩) hp hn ho hc
  | setForAll c op ap =>
      show Reach (n + 1) (set_approval_for_all s c op ap).2
      obtain ⟨hp, hn, ho, hc, -, -⟩ := set_approval_preserves s c op ap
      exact Reach_congr (reach_mono ⟨hInv, hle, hver⟩) hp hn ho hc
  | xfer c t tok =>
      show Reach (n + 1) (transfer_token_from s c c t tok).2
      exact reach_transfer ⟨hInv, hle, hver⟩ hcap' c c t tok
  | xferFrom c f t tok =>
      show Reach (n + 1) (transfer_token_from s c f t tok).2
      exact reach_transfer ⟨hInv, hle, hver⟩ hcap' c f t tok

theorem reach_new : Reach 0 State.new := by
  refine ⟨⟨?_, ?_, ?_⟩, Nat.le_refl _, ?_⟩
  · intro t
    simp [State.new]
  · intro t
    simp [State.new]
  · intro a
    show (Option.getD none 0) = ownedCount (fun _ => none) 0 a
    simp [ownedCount]
  · intro t r hr
    exact absurd hr (by simp [State.new])

theorem reach_run {s : State} {n : Nat} (h : Reach n s) (calls : List Call)
    (hlen : n + calls.length ≤ U128_MAX) :
    Reach (n + calls.length) (run s calls) := by
  induction calls generalizing s n with
  | nil => simpa [run] using h
  | cons c rest ih =>
      have h1 : Reach (n + 1) (step s c) :=
        reach_step h (by simp only [List.length_cons] at hlen; omega) c
      have h2 := ih h1 (by simp only [List.length_cons] at hlen; omega)
      have heq : n + (c :: rest).length = n + 1 + rest.length := by
        simp only [List.length_cons]
        omega
      rw [heq]
      simpa [run, List.foldl] using h2

/-- Every state reachable from the fresh contract by at most `u128::MAX`
calls satisfies the reachability invariant with the trace length as budget. -/
theorem reach_from_new (calls : List Call) (hlen : calls.length ≤ U128_MAX) :
    Reach calls.length (run State.new calls) := by
  have := reach_run reach_new calls (by omega)
  simpa using this

/-! ### Fields untouched by each operation -/

theorem update_next (s : State) (c b t p : Nat) (u d : String)
    (sh : Option Hash) :
    (update_dataset s c b t u p d sh).2.next_token_id = s.next_token_id := by
  unfold update_dataset
  split
  · rfl
  · split_ifs
    · rfl
    · rfl
    · rfl
    · cases sh <;> rfl

theorem revoke_next (s : State) (c b t : Nat) (reason : Option String) :
    (revoke_passport s c b t reason).2.next_token_id = s.next_token_id := by
  unfold revoke_passport
  split
  · rfl
  · split_ifs
    · rfl
    · rfl
    · rfl

/-- A transfer never touches the passport store, the counter, the history,
the subject index, or the operator approvals. -/
theorem transfer_other_fields (s : State) (caller from_ to_ tok : Nat) :
    (transfer_token_from s caller from_ to_ tok).2.passports = s.passports ∧
    (transfer_token_from s caller from_ to_ tok).2.next_token_id = s.next_token_id ∧
    (transfer_token_from s caller from_ to_ tok).2.version_history = s.version_history ∧
    (transfer_token_from s caller from_ to_ tok).2.subject_id_to_token = s.subject_id_to_token ∧
    (transfer_token_from s caller from_ to_ tok).2.operator_approvals = s.operator_approvals := by
  unfold transfer_token_from
  split
  · exact ⟨rfl, rfl, rfl, rfl, rfl⟩
  · split_ifs
    · exact ⟨rfl, rfl, rfl, rfl, rfl⟩
    · split
      · exact ⟨rfl, rfl, rfl, rfl, rfl⟩
      · split_ifs
        · exact ⟨rfl, rfl, rfl, rfl, rfl⟩
        · exact ⟨rfl, rfl, rfl, rfl, rfl⟩
        · dsimp only
          split
          · exact ⟨rfl, rfl, rfl, rfl, rfl⟩
          · next s2 heq =>
            obtain ⟨-, -, rfl⟩ := remove_token_from_ok heq
            split
            · exact ⟨rfl, rfl, rfl, rfl, rfl⟩
            · next s3 heq2 =>
              obtain ⟨-, -, rfl⟩ := add_token_to_ok heq2
              exact ⟨rfl, rfl, rfl, rfl, rfl⟩

/-- Full description of a successful registration, with no assumption on the
starting state. -/
theorem register_ok_state {s s' : State} {c b p v : Nat} {u d : String}
    {g : Granularity} {sh : Option Hash}
    (h : register_passport s c b u p d g sh = (.ok v, s')) :
    v = s.next_token_id ∧
    s' = { passports := mapInsert s.passports s.next_token_id
             { token_id := s.next_token_id, issuer := c, dataset_uri := u,
               payload_hash := p, dataset_type := d, version := 1,
               status := .Active, created_at := b, updated_at := b,
               granularity := g, subject_id_hash := sh },
           next_token_id := s.next_token_id + 1,
           version_history := mapInsert s.version_history (s.next_token_id, 1)
             { version := 1, dataset_uri := u, payload_hash := p,
               dataset_type := d, updated_at := b, updated_by := c },
           subject_id_to_token :=
             match sh with
             | some hh => mapInsert s.subject_id_to_token hh s.next_token_id
             | none => s.subject_id_to_token,
           token_owner := mapInsert s.token_owner s.next_token_id c,
           token_approvals := s.token_approvals,
           owned_tokens_count :=
             mapInsert s.owned_tokens_count c ((s.owned_tokens_count c).getD 0 + 1),
           operator_approvals := s.operator_approvals } := by
  cases sh with
  | none =>
      unfold register_passport at h
      dsimp only at h
      split at h
      · exact absurd (congrArg Prod.fst h) (by simp)
      · split at h
        · exact absurd (congrArg Prod.fst h) (by simp)
        · next s2 heq =>
          obtain ⟨-, -, rfl⟩ := add_token_to_ok heq
          refine ⟨by simpa using (congrArg Prod.fst h).symm, ?_⟩
          exact (congrArg Prod.snd h).symm
  | some hh =>
      unfold register_passport at h
      dsimp only at h
      split at h
      · exact absurd (congrArg Prod.fst h) (by simp)
      · split at h
        · exact absurd (congrArg Prod.fst h) (by simp)
        · next s2 heq =>
          obtain ⟨-, -, rfl⟩ := add_token_to_ok heq
          refine ⟨by simpa using (congrArg Prod.fst h).symm, ?_⟩
          exact (congrArg Prod.snd h).symm

/-- A failing registration leaves every store except possibly the passport
record at the (not yet consumed) `next_token_id` slot unchanged. -/
theorem register_err_state {s s' : State} {c b p : Nat} {u d : String}
    {g : Granularity} {sh : Option Hash} {e : Error}
    (h : register_passport s c b u p d g sh = (.error e, s')) :
    (s' = s ∨
      s' = { s with
             passports := mapInsert s.passports s.next_token_id
               { token_id := s.next_token_id, issuer := c, dataset_uri := u,
                 payload_hash := p, dataset_type := d, version := 1,
                 status := .Active, created_at := b, updated_at := b,
                 granularity := g, subject_id_hash := sh } }) := by
  cases sh with
  | none =>
      unfold register_passport at h
      dsimp only at h
      split at h
      · exact Or.inl (congrArg Prod.snd h).symm
      · split at h
        · exact Or.inr (congrArg Prod.snd h).symm
        · exact absurd (congrArg Prod.fst h) (by simp)
  | some hh =>
      unfold register_passport at h
      dsimp only at h
      split at h
      · exact Or.inl (congrArg Prod.snd h).symm
      · split at h
        · exact Or.inr (congrArg Prod.snd h).symm
        · exact absurd (congrArg Prod.fst h) (by simp)

/-! ### The claims -/

/-- C2: `register_passport` assigns token ids sequentially starting at 0: a
successful registration returns the current value of the `next_token_id`
counter and increments it by exactly 1 (so two consecutive successful
registrations return consecutive ids), a failed registration — in particular
`InvalidInput` for an empty `dataset_uri` or `dataset_type` — returns an
error and leaves `next_token_id` unchanged, and no other public write
operation ever changes `next_token_id`. -/
theorem register_token_id_sequential (s : State) :
    (∀ c b u p d g sh v s',
      register_passport s c b u p d g sh = (.ok v, s') →
      v = s.next_token_id ∧ s'.next_token_id = s.next_token_id + 1) ∧
    (∀ c b u p d g sh e s',
      register_passport s c b u p d g sh = (.error e, s') →
      s'.next_token_id = s.next_token_id) ∧
    (∀ c b u p d g sh, (u.isEmpty || d.isEmpty) = true →
      register_passport s c b u p d g sh = (.error .InvalidInput, s)) ∧
    (∀ c1 b1 u1 p1 d1 g1 sh1 v1 s1 c2 b2 u2 p2 d2 g2 sh2 v2 s2,
      register_passport s c1 b1 u1 p1 d1 g1 sh1 = (.ok v1, s1) →
      register_passport s1 c2 b2 u2 p2 d2 g2 sh2 = (.ok v2, s2) →
      v2 = v1 + 1) ∧
    (∀ c b t u p d sh,
      (update_dataset s c b t u p d sh).2.next_token_id = s.next_token_id) ∧
    (∀ c b t reason,
      (revoke_passport s c b t reason).2.next_token_id = s.next_token_id) ∧
    (∀ c t tok, ((approve s c t tok).2).next_token_id = s.next_token_id) ∧
    (∀ c op ap,
      ((set_approval_for_all s c op ap).2).next_token_id = s.next_token_id) ∧
    (∀ caller from_ to_ tok,
      (transfer_token_from s caller from_ to_ tok).2.next_token_id = s.next_token_id) := by
  refine ⟨?_, ?_, ?_, ?_, ?_, ?_, ?_, ?_, ?_⟩
  · intro c b u p d g sh v s' h
    exact register_ok_inv h
  · intro c b u p d g sh e s' h
    exact register_err_next h
  · intro c b u p d g sh hc
    exact register_invalid s c b p g sh hc
  · intro c1 b1 u1 p1 d1 g1 sh1 v1 s1 c2 b2 u2 p2 d2 g2 sh2 v2 s2 h1 h2
    obtain ⟨hv1, hn1⟩ := register_ok_inv h1
    obtain ⟨hv2, -⟩ := register_ok_inv h2
    omega
  · intro c b t u p d sh
    exact update_next s c b t p u d sh
  · intro c b t reason
    exact revoke_next s c b t reason
  · intro c t tok
    exact (approve_preserves s c t tok).2.1
  · intro c op ap
    exact (set_approval_preserves s c op ap).2.1
  · intro caller from_ to_ tok
    exact (transfer_other_fields s caller from_ to_ tok).2.1

/-- C2 witness: concrete instances of the failing and the succeeding
registration clauses. -/
theorem register_token_id_sequential_witness :
    (register_passport State.new 5 0 "" 0 "t" .Batch none =
      (.error .InvalidInput, State.new)) ∧
    (0 = State.new.next_token_id ∧
      (register_passport State.new 5 0 "u" 0 "t" .Batch none).2.next_token_id =
        State.new.next_token_id + 1) :=
  ⟨(register_token_id_sequential State.new).2.2.1 5 0 "" 0 "t" .Batch none (by decide),
   (register_token_id_sequential State.new).1 5 0 "u" 0 "t" .Batch none 0 _ (by rfl)⟩

/-- C1 counterexample: from the internally inconsistent state `cBadState`
(token 0 has a recorded owner but no balance entry), `transfer` called by the
owner returns the typed error `InvalidInput` and yet has already cleared the
outstanding token approval — so on arbitrary starting states a typed error
does not imply an unchanged registry state. -/
theorem transfer_error_mutates_counterexample :
    (transfer cBadState 1 3 0).1 = .error .InvalidInput ∧
    cBadState.token_approvals 0 = some 2 ∧
    (transfer cBadState 1 3 0).2.token_approvals 0 = none := by
  refine ⟨?_, ?_, ?_⟩ <;> rfl

/-- C1 (amended): on every state satisfying the registry consistency
invariant `Inv` whose token counter has not exhausted `u128` — in particular
on every state actually reachable from the fresh contract — each public
write operation that returns a typed error leaves the entire registry state
unchanged. -/
theorem error_atomicity_of_consistent (s : State) (hInv : Inv s)
    (hcap : s.next_token_id < U128_MAX) :
    (∀ c b u p d g sh e s',
      register_passport s c b u p d g sh = (.error e, s') → s' = s) ∧
    (∀ c b t u p d sh e s',
      update_dataset s c b t u p d sh = (.error e, s') → s' = s) ∧
    (∀ c b t reason e s',
      revoke_passport s c b t reason = (.error e, s') → s' = s) ∧
    (∀ c to_ tok e s', approve s c to_ tok = (.error e, s') → s' = s) ∧
    (∀ c op ap e s',
      set_approval_for_all s c op ap = (.error e, s') → s' = s) ∧
    (∀ caller to_ tok e s',
      transfer s caller to_ tok = (.error e, s') → s' = s) ∧
    (∀ caller from_ to_ tok e s',
      transfer_from s caller from_ to_ tok = (.error e, s') → s' = s) := by
  have htr : ∀ caller from_ to_ tok e s',
      transfer_token_from s caller from_ to_ tok = (.error e, s') → s' = s := by
    intro caller from_ to_ tok e s' h
    rcases transfer_guards s caller from_ to_ tok with ⟨e2, herr⟩ | ⟨r, hrec, hst, hown, happ⟩
    · rw [herr] at h
      injection h with h1 h2
      exact h2.symm
    · rw [transfer_ok hInv (le_of_lt hcap) hrec hst hown happ] at h
      exact absurd (congrArg Prod.fst h) (by simp)
  refine ⟨?_, ?_, ?_, ?_, ?_, ?_, ?_⟩
  · intro c b u p d g sh e s' h
    by_cases hc : (u.isEmpty || d.isEmpty) = true
    · rw [register_invalid s c b p g sh hc] at h
      injection h with h1 h2
      exact h2.symm
    · simp only [Bool.or_eq_true, not_or, Bool.not_eq_true] at hc
      rw [register_ok hInv hcap c b u p d g sh hc.1 hc.2] at h
      exact absurd (congrArg Prod.fst h) (by simp)
  · intro _ _ _ _ _ _ _ _ _ h
    exact update_err h
  · intro _ _ _ _ _ _ h
    exact revoke_err h
  · intro _ _ _ _ _ h
    exact approve_err h
  · intro _ _ _ _ _ h
    exact set_approval_for_all_err h
  · intro caller to_ tok e s' h
    exact htr caller caller to_ tok e s' h
  · intro caller from_ to_ tok e s' h
    exact htr caller from_ to_ tok e s' h

/-- C1 witness: on the fresh (consistent) contract, a failing update leaves
the state unchanged. -/
theorem error_atomicity_witness :
    (update_dataset State.new 1 0 7 "u" 0 "t" none).2 = State.new :=
  ((error_atomicity_of_consistent State.new reach_new.1 (by decide)).2.1)
    1 0 7 "u" 0 "t" none .TokenNotFound _ (by rfl)

/-- On a consistent state, the balances sum to the number of registered
tokens, over any finite set containing every holder. -/
theorem sum_balances {s : State} (hInv : Inv s) (H : Finset Address)
    (hH : ∀ t h, s.token_owner t = some h → h ∈ H) :
    ∑ h in H, balance_of s h = s.next_token_id := by
  have hmem : ∀ x ∈ Finset.range s.next_token_id,
      (s.token_owner x).getD 0 ∈ H := by
    intro x hx
    rw [Finset.mem_range] at hx
    have hsome : (s.token_owner x).isSome := (hInv.owner_lt x).mpr hx
    obtain ⟨o, ho⟩ := Option.isSome_iff_exists.mp hsome
    rw [ho]
    exact hH x o ho
  have hfib := Finset.card_eq_sum_card_fiberwise hmem
  rw [Finset.card_range] at hfib
  calc ∑ h in H, balance_of s h
      = ∑ h in H, ((Finset.range s.next_token_id).filter
          (fun x => (s.token_owner x).getD 0 = h)).card := by
        apply Finset.sum_congr rfl
        intro h _
        rw [hInv.balance_eq h]
        unfold ownedCount
        congr 1
        apply Finset.filter_congr
        intro x hx
        rw [Finset.mem_range] at hx
        obtain ⟨o, ho⟩ :=
          Option.isSome_iff_exists.mp ((hInv.owner_lt x).mpr hx)
        rw [ho, Option.getD_some]
        constructor
        · intro heq
          exact Option.some.inj heq
        · intro heq
          rw [heq]
    _ = s.next_token_id := hfib.symm

/-- C6: in every state reachable from the empty registry by a sequence of
calls (of feasible length), `balance_of h` equals the number of tokens whose
current holder is `h`; the registered tokens are exactly the ids below
`next_token_id`; every registered token has a current holder (`owner_of` is
never absent after registration); and the sum of all balances — over any
finite set containing every holder — equals the number of registered
tokens. -/
theorem balance_owner_consistency (calls : List Call)
    (hlen : calls.length ≤ U128_MAX) :
    (∀ h, balance_of (run State.new calls) h =
      ((Finset.range (run State.new calls).next_token_id).filter
        (fun t => (run State.new calls).token_owner t = some h)).card) ∧
    (∀ t, (get_passport (run State.new calls) t).isSome ↔
      t < (run State.new calls).next_token_id) ∧
    (∀ t, (get_passport (run State.new calls) t).isSome →
      (owner_of (run State.new calls) t).isSome) ∧
    (∀ H : Finset Address,
      (∀ t h, (run State.new calls).token_owner t = some h → h ∈ H) →
      ∑ h in H, balance_of (run State.new calls) h =
        (run State.new calls).next_token_id) := by
  obtain ⟨hInv, -, -⟩ := reach_from_new calls hlen
  refine ⟨?_, hInv.passport_lt, ?_, ?_⟩
  · intro h
    exact hInv.balance_eq h
  · intro t ht
    rw [show (owner_of (run State.new calls) t).isSome =
        ((run State.new calls).token_owner t).isSome from rfl]
    rw [hInv.owner_lt t]
    exact (hInv.passport_lt t).mp ht
  · intro H hH
    exact sum_balances hInv H hH

/-- C6 witness: the state after one registration, with the holder set
`{5}`. -/
theorem balance_owner_consistency_witness :
    balance_of (run State.new [Call.register 5 0 "u" 0 "t" .Batch none]) 5 =
      ((Finset.range (run State.new
          [Call.register 5 0 "u" 0 "t" .Batch none]).next_token_id).filter
        (fun t => (run State.new
          [Call.register 5 0 "u" 0 "t" .Batch none]).token_owner t = some 5)).card :=
  (balance_owner_consistency [Call.register 5 0 "u" 0 "t" .Batch none]
    (by decide)).1 5

/-- C10: for every Active token whose current holder is `h` (on a consistent
state), the self-transfer `transfer(h, token)` called by `h` returns `Ok`,
leaves `owner_of` equal to `h` and every holder's balance unchanged, and
clears any single-token approval, so `get_approved` is absent afterwards. -/
theorem self_transfer_identity (s : State) (hInv : Inv s)
    (hcap : s.next_token_id ≤ U128_MAX) (h tok : Nat) (r : PassportRecord)
    (hrec : s.passports tok = some r) (hst : r.status = .Active)
    (hown : s.token_owner tok = some h) :
    (transfer s h h tok).1 = .ok () ∧
    owner_of (transfer s h h tok).2 tok = some h ∧
    (∀ a, balance_of (transfer s h h tok).2 a = balance_of s a) ∧
    get_approved (transfer s h h tok).2 tok = none := by
  have hst' : r.status ≠ PassportStatus.Revoked := by
    rw [hst]
    decide
  have happ : approved_or_owner s h tok h = true := by
    unfold approved_or_owner
    simp
  have htr := @transfer_ok s hInv hcap h h h tok r hrec hst' hown happ
  rw [show transfer s h h tok = transfer_token_from s h h h tok from rfl, htr]
  have hbpos := hInv.balance_pos hown
  refine ⟨rfl, ?_, ?_, ?_⟩
  · show mapInsert (mapRemove s.token_owner tok) tok h tok = some h
    exact mapInsert_self _ _ _
  · intro a
    show (mapInsert (mapInsert s.owned_tokens_count h (balance_of s h - 1)) h
        ((mapInsert s.owned_tokens_count h (balance_of s h - 1) h).getD 0 + 1) a).getD 0 =
      balance_of s a
    by_cases ha : a = h
    · rw [ha, mapInsert_self, Option.getD_some, mapInsert_self, Option.getD_some]
      show balance_of s h - 1 + 1 = balance_of s h
      omega
    · rw [mapInsert_ne _ _ _ _ ha, mapInsert_ne _ _ _ _ ha]
      rfl
  · show mapRemove s.token_approvals tok tok = none
    exact mapRemove_self _ _

/-- A permitted `approve` succeeds and records the approval. -/
theorem approve_ok {s : State} {tok ow : Nat} (hown : s.token_owner tok = some ow)
    (c to_ : Nat) (hne : to_ ≠ ow)
    (hc : c = ow ∨ is_approved_for_all s ow c = true) :
    approve s c to_ tok =
      (.ok (), { s with token_approvals := mapInsert s.token_approvals tok to_ }) := by
  unfold approve
  rw [show owner_of s tok = some ow from hown]
  show (if to_ = ow then _ else _) = _
  rw [if_neg hne]
  show (if c ≠ ow ∧ is_approved_for_all s ow c = false then _ else _) = _
  rw [if_neg ?hcond]
  case hcond =>
    rintro ⟨hc1, hc2⟩
    rcases hc with h | h
    · exact hc1 h
    · rw [h] at hc2
      cases hc2

/-- A transfer whose caller is neither holder, approved, nor operator fails
with `NotApproved` before any mutation. -/
theorem transfer_not_approved {s : State} {tok : Nat} {r : PassportRecord}
    {ow : Nat} (hrec : s.passports tok = some r)
    (hst : r.status ≠ .Revoked) (hown : s.token_owner tok = some ow)
    (caller : Nat) (happ : approved_or_owner s caller tok ow = false)
    (to_ : Nat) :
    transfer_token_from s caller ow to_ tok = (.error .NotApproved, s) := by
  unfold transfer_token_from
  rw [hrec]
  show (if r.status = .Revoked then _ else _) = _
  rw [if_neg hst]
  show (match owner_of s tok with | none => _ | some owner => _) = _
  rw [show owner_of s tok = some ow from hown]
  show (if ow ≠ ow then _ else _) = _
  rw [if_neg (by simp)]
  show (if approved_or_owner s caller tok ow = false then _ else _) = _
  rw [if_pos happ]

/-- C7 (amended): on a consistent state, for an Active token currently held
by `ow` and identities `X`, `Y` with `X` not the holder, not `Y`, not an
operator for `Y`, and `Y` itself not the holder: `approve(X, token)` called
by the holder succeeds, the following `transfer_from(ow, Y, token)` called
by `X` succeeds and yields `owner_of token = Y`, decreases the holder's
balance by 1, increases `Y`'s balance by 1 and clears the single-token
approval, so a further `transfer_from(Y, anyone, token)` called by `X` fails
with `NotApproved`. -/
theorem approve_transfer_from_spec (s : State) (hInv : Inv s)
    (hcap : s.next_token_id ≤ U128_MAX) (ow X Y tok : Nat) (r : PassportRecord)
    (hrec : s.passports tok = some r) (hst : r.status = .Active)
    (hown : s.token_owner tok = some ow)
    (hXo : X ≠ ow) (hYo : Y ≠ ow) (hXY : X ≠ Y)
    (hop : is_approved_for_all s Y X = false) :
    ∃ s1 s2,
      approve s ow X tok = (.ok (), s1) ∧
      transfer_from s1 X ow Y tok = (.ok (), s2) ∧
      owner_of s2 tok = some Y ∧
      balance_of s2 ow = balance_of s ow - 1 ∧
      balance_of s2 Y = balance_of s Y + 1 ∧
      get_approved s2 tok = none ∧
      ∀ Z, (transfer_from s2 X Y Z tok).1 = .error .NotApproved := by
  have hst' : r.status ≠ PassportStatus.Revoked := by
    rw [hst]
    decide
  have hoY : ow ≠ Y := fun hh => hYo hh.symm
  have happrove := approve_ok hown ow X hXo (Or.inl rfl)
  have hInv1 : Inv ({ s with token_approvals := mapInsert s.token_approvals tok X }) :=
    ⟨hInv.owner_lt, hInv.passport_lt, hInv.balance_eq⟩
  have happ1 : approved_or_owner
      { s with token_approvals := mapInsert s.token_approvals tok X } X tok ow = true := by
    unfold approved_or_owner
    rw [show ({ s with token_approvals := mapInsert s.token_approvals tok X } :
        State).token_approvals tok = some X from mapInsert_self _ _ _]
    simp
  have htr := @transfer_ok { s with token_approvals := mapInsert s.token_approvals tok X }
    hInv1 hcap X ow Y tok r hrec hst' hown happ1
  have hfinal : ∀ s2 : State, s2.passports tok = some r →
      s2.token_owner tok = some Y → s2.token_approvals tok = none →
      is_approved_for_all s2 Y X = false →
      ∀ Z, (transfer_from s2 X Y Z tok).1 = .error .NotApproved := by
    intro s2 h1 h2 h3 h4 Z
    have happ2 : approved_or_owner s2 X tok Y = false := by
      unfold approved_or_owner
      rw [h3, show (X == Y) = false from beq_eq_false_iff_ne.mpr hXY, h4]
      rfl
    rw [show transfer_from s2 X Y Z tok = transfer_token_from s2 X Y Z tok from rfl,
      transfer_not_approved h1 hst' h2 X happ2 Z]
  refine ⟨_, _, happrove, htr, ?_, ?_, ?_, ?_, ?_⟩
  · exact mapInsert_self _ _ _
  · show (mapInsert (mapInsert s.owned_tokens_count ow (balance_of s ow - 1)) Y
        ((mapInsert s.owned_tokens_count ow (balance_of s ow - 1) Y).getD 0 + 1) ow).getD 0 =
      balance_of s ow - 1
    rw [mapInsert_ne _ _ _ _ hoY, mapInsert_self, Option.getD_some]
  · show (mapInsert (mapInsert s.owned_tokens_count ow (balance_of s ow - 1)) Y
        ((mapInsert s.owned_tokens_count ow (balance_of s ow - 1) Y).getD 0 + 1) Y).getD 0 =
      balance_of s Y + 1
    rw [mapInsert_self, Option.getD_some, mapInsert_ne _ _ _ _ hYo]
    rfl
  · exact mapRemove_self _ _
  · exact hfinal _ hrec (mapInsert_self _ _ _) (mapRemove_self _ _) hop

/-- C7 counterexample: the claim constrains only `X`, so `Y` may equal the
holder; then the approved transfer succeeds but the holder's balance does
not decrease by one (it stays 1 while the claim demands 0). -/
theorem approve_transfer_self_counterexample :
    (approve wState 5 1 0).1 = .ok () ∧
    (transfer_from (approve wState 5 1 0).2 1 5 5 0).1 = .ok () ∧
    balance_of (transfer_from (approve wState 5 1 0).2 1 5 5 0).2 5 = 1 ∧
    balance_of wState 5 - 1 = 0 := by
  refine ⟨?_, ?_, ?_, ?_⟩ <;> rfl

/-- C7 witness: holder 5, approved spender 1, recipient 2 on the one-token
state. -/
theorem approve_transfer_from_witness :
    ∃ s1 s2,
      approve wState 5 1 0 = (.ok (), s1) ∧
      transfer_from s1 1 5 2 0 = (.ok (), s2) ∧
      owner_of s2 0 = some 2 ∧
      balance_of s2 5 = balance_of wState 5 - 1 ∧
      balance_of s2 2 = balance_of wState 2 + 1 ∧
      get_approved s2 0 = none ∧
      ∀ Z, (transfer_from s2 1 2 Z 0).1 = .error .NotApproved :=
  approve_transfer_from_spec wState
    (reach_from_new [Call.register 5 0 "u" 0 "t" Granularity.Batch none] (by decide)).1
    (by decide) 5 1 2 0
    { token_id := 0, issuer := 5, dataset_uri := "u", payload_hash := 0,
      dataset_type := "t", version := 1, status := .Active, created_at := 0,
      updated_at := 0, granularity := .Batch, subject_id_hash := none }
    (by rfl) (by rfl) (by rfl) (by decide) (by decide) (by decide) (by rfl)

/-! ### Per-token record preservation along traces -/

theorem update_passports_ne (s : State) (c b t2 p : Nat) (u d : String)
    (sh : Option Hash) {t : Nat} (ht : t ≠ t2) :
    (update_dataset s c b t2 u p d sh).2.passports t = s.passports t := by
  unfold update_dataset
  split
  · rfl
  · split_ifs
    · rfl
    · rfl
    · rfl
    · cases sh with
      | none =>
          show mapInsert s.passports t2 _ t = s.passports t
          exact mapInsert_ne _ _ _ _ ht
      | some hh =>
          show mapInsert s.passports t2 _ t = s.passports t
          exact mapInsert_ne _ _ _ _ ht

theorem revoke_passports_ne (s : State) (c b t2 : Nat) (reason : Option String)
    {t : Nat} (ht : t ≠ t2) :
    (revoke_passport s c b t2 reason).2.passports t = s.passports t := by
  unfold revoke_passport
  split
  · rfl
  · split_ifs
    · rfl
    · rfl
    · show mapInsert s.passports t2 _ t = s.passports t
      exact mapInsert_ne _ _ _ _ ht

theorem register_passports_lt (s : State) (c b p : Nat) (u d : String)
    (g : Granularity) (sh : Option Hash) {t : Nat} (ht : t < s.next_token_id) :
    (register_passport s c b u p d g sh).2.passports t = s.passports t := by
  have hne : t ≠ s.next_token_id := by omega
  rcases hres : register_passport s c b u p d g sh with ⟨res, s'⟩
  show s'.passports t = s.passports t
  cases res with
  | ok v =>
      rw [(register_ok_state hres).2]
      exact mapInsert_ne _ _ _ _ hne
  | error e =>
      rcases register_err_state hres with h2 | h2
      · rw [h2]
      · rw [h2]
        exact mapInsert_ne _ _ _ _ hne

theorem step_next_le (s : State) (c : Call) :
    s.next_token_id ≤ (step s c).next_token_id := by
  cases c with
  | register c b u p d g sh =>
      show s.next_token_id ≤ (register_passport s c b u p d g sh).2.next_token_id
      rcases hres : register_passport s c b u p d g sh with ⟨res, s'⟩
      show s.next_token_id ≤ s'.next_token_id
      cases res with
      | ok v =>
          rw [(register_ok_state hres).2]
          dsimp only
          omega
      | error e =>
          rw [register_err_next hres]
  | update c b t u p d sh =>
      rw [show (step s (.update c b t u p d sh)) = (update_dataset s c b t u p d sh).2 from rfl,
        update_next]
  | revoke c b t reason =>
      rw [show (step s (.revoke c b t reason)) = (revoke_passport s c b t reason).2 from rfl,
        revoke_next]
  | approval c t tok =>
      rw [show (step s (.approval c t tok)) = (approve s c t tok).2 from rfl,
        (approve_preserves s c t tok).2.1]
  | setForAll c op ap =>
      rw [show (step s (.setForAll c op ap)) = (set_approval_for_all s c op ap).2 from rfl,
        (set_approval_preserves s c op ap).2.1]
  | xfer c t tok =>
      rw [show (step s (.xfer c t tok)) = (transfer_token_from s c c t tok).2 from rfl,
        (transfer_other_fields s c c t tok).2.1]
  | xferFrom c f t tok =>
      rw [show (step s (.xferFrom c f t tok)) = (transfer_token_from s c f t tok).2 from rfl,
        (transfer_other_fields s c f t tok).2.1]

/-- A revoked record is frozen verbatim by every later call. -/
theorem step_passports_frozen {s : State} {t : Nat} {r : PassportRecord}
    (hlt : t < s.next_token_id) (hrec : s.passports t = some r)
    (hfix : r.status = .Revoked) (c : Call) :
    t < (step s c).next_token_id ∧ (step s c).passports t = some r := by
  refine ⟨lt_of_lt_of_le hlt (step_next_le s c), ?_⟩
  cases c with
  | register c b u p d g sh =>
      show (register_passport s c b u p d g sh).2.passports t = some r
      rw [register_passports_lt s c b p u d g sh hlt]
      exact hrec
  | update c b t2 u p d sh =>
      show (update_dataset s c b t2 u p d sh).2.passports t = some r
      by_cases ht2 : t = t2
      · subst ht2
        rcases hres : update_dataset s c b t u p d sh with ⟨res, s'⟩
        cases res with
        | ok v =>
            obtain ⟨r', hrec', -, hst', -, -⟩ := update_ok_cond hres
            rw [hrec] at hrec'
            injection hrec' with hrec'
            rw [← hrec'] at hst'
            exact absurd hfix hst'
        | error e =>
            show s'.passports t = some r
            rw [update_err hres]
            exact hrec
      · rw [update_passports_ne s c b t2 p u d sh ht2]
        exact hrec
  | revoke c b t2 reason =>
      show (revoke_passport s c b t2 reason).2.passports t = some r
      by_cases ht2 : t = t2
      · subst ht2
        rcases hres : revoke_passport s c b t reason with ⟨res, s'⟩
        cases res with
        | ok v =>
            obtain ⟨r', hrec', -, hst'⟩ := revoke_ok_cond hres
            rw [hrec] at hrec'
            injection hrec' with hrec'
            rw [← hrec'] at hst'
            exact absurd hfix hst'
        | error e =>
            show s'.passports t = some r
            rw [revoke_err hres]
            exact hrec
      · rw [revoke_passports_ne s c b t2 reason ht2]
        exact hrec
  | approval c t2 tok =>
      show (approve s c t2 tok).2.passports t = some r
      rw [(approve_preserves s c t2 tok).1]
      exact hrec
  | setForAll c op ap =>
      show (set_approval_for_all s c op ap).2.passports t = some r
      rw [(set_approval_preserves s c op ap).1]
      exact hrec
  | xfer c t2 tok =>
      show (transfer_token_from s c c t2 tok).2.passports t = some r
      rw [(transfer_other_fields s c c t2 tok).1]
      exact hrec
  | xferFrom c f t2 tok =>
      show (transfer_token_from s c f t2 tok).2.passports t = some r
      rw [(transfer_other_fields s c f t2 tok).1]
      exact hrec

theorem run_passports_frozen {s : State} {t : Nat} {r : PassportRecord}
    (hlt : t < s.next_token_id) (hrec : s.passports t = some r)
    (hfix : r.status = .Revoked) (calls : List Call) :
    t < (run s calls).next_token_id ∧ (run s calls).passports t = some r := by
  induction calls generalizing s with
  | nil => exact ⟨hlt, hrec⟩
  | cons c rest ih =>
      obtain ⟨h1, h2⟩ := step_passports_frozen hlt hrec hfix c
      simpa [run, List.foldl] using ih h1 h2

theorem update_revoked {s : State} {t : Nat} {r : PassportRecord}
    (hrec : s.passports t = some r) {c : Nat} (hiss : r.issuer = c)
    (hrevd : r.status = .Revoked) (b : Nat) (u : String) (p : Nat)
    (d : String) (sh : Option Hash) :
    update_dataset s c b t u p d sh = (.error .PassportRevoked, s) := by
  unfold update_dataset
  rw [hrec]
  show (if r.issuer ≠ c then _ else _) = _
  rw [if_neg (by simp [hiss])]
  show (if r.status = .Revoked then _ else _) = _
  rw [if_pos hrevd]

theorem transfer_revoked {s : State} {t : Nat} {r : PassportRecord}
    (hrec : s.passports t = some r) (hrevd : r.status = .Revoked)
    (caller from_ to_ : Nat) :
    transfer_token_from s caller from_ to_ t = (.error .PassportRevoked, s) := by
  unfold transfer_token_from
  rw [hrec]
  show (if r.status = .Revoked then _ else _) = _
  rw [if_pos hrevd]

theorem revoke_already {s : State} {t : Nat} {r : PassportRecord}
    (hrec : s.passports t = some r) {c : Nat} (hiss : r.issuer = c)
    (hrevd : r.status = .Revoked) (b : Nat) (reason : Option String) :
    revoke_passport s c b t reason = (.error .AlreadyRevoked, s) := by
  unfold revoke_passport
  rw [hrec]
  show (if r.issuer ≠ c then _ else _) = _
  rw [if_neg (by simp [hiss])]
  show (if r.status = .Revoked then _ else _) = _
  rw [if_pos hrevd]

/-- C4 counterexample: after a successful revocation, an `update_dataset` by
a caller other than the issuer fails with `Unauthorized`, not
`PassportRevoked` (the authorization check runs first), so not every
subsequent `update_dataset` fails with `PassportRevoked`. -/
theorem revoked_update_unauthorized_counterexample :
    (revoke_passport wState 5 1 0 none).1 = .ok () ∧
    (update_dataset (revoke_passport wState 5 1 0 none).2 9 2 0 "x" 0 "t" none).1 =
      .error .Unauthorized ∧
    Error.Unauthorized ≠ Error.PassportRevoked := by
  refine ⟨by rfl, by rfl, by decide⟩

/-- C4 (amended): revocation is terminal.  After a successful
`revoke_passport` on a registered token, the record's status is `Revoked`
and stays `Revoked` in every reachable later state; in every such state,
`update_dataset` on that token *called by the issuer* fails with
`PassportRevoked`, every `transfer`/`transfer_from` of it (any caller) fails
with `PassportRevoked`, and `revoke_passport` *called by the issuer* fails
with `AlreadyRevoked`.  (Calls by non-issuers fail too, but with
`Unauthorized`.) -/
theorem revocation_terminal (s : State) (c b tok : Nat) (reason : Option String)
    (hlt : tok < s.next_token_id) (s' : State)
    (hrev : revoke_passport s c b tok reason = (.ok (), s')) :
    ∀ calls : List Call,
      (∃ r2, (run s' calls).passports tok = some r2 ∧
        r2.status = .Revoked ∧ r2.issuer = c) ∧
      (∀ b2 u p d sh,
        (update_dataset (run s' calls) c b2 tok u p d sh).1 = .error .PassportRevoked) ∧
      (∀ caller from_ to_,
        (transfer_token_from (run s' calls) caller from_ to_ tok).1 =
          .error .PassportRevoked) ∧
      (∀ b2 reason2,
        (revoke_passport (run s' calls) c b2 tok reason2).1 = .error .AlreadyRevoked) := by
  obtain ⟨r, hrec, hiss, hst⟩ := revoke_ok_cond hrev
  rw [revoke_ok hrec c b reason hiss hst] at hrev
  have hs' : s' = { s with
      passports := mapInsert s.passports tok { r with status := .Revoked, updated_at := b } } :=
    (congrArg Prod.snd hrev).symm
  subst hs'
  intro calls
  have hrec' : ({ s with
      passports := mapInsert s.passports tok { r with status := .Revoked, updated_at := b } } :
      State).passports tok = some { r with status := .Revoked, updated_at := b } :=
    mapInsert_self _ _ _
  have hlt' : tok < ({ s with
      passports := mapInsert s.passports tok { r with status := .Revoked, updated_at := b } } :
      State).next_token_id := hlt
  obtain ⟨hlt2, hfrozen⟩ := run_passports_frozen hlt' hrec' rfl calls
  refine ⟨⟨_, hfrozen, rfl, hiss⟩, ?_, ?_, ?_⟩
  · intro b2 u p d sh
    rw [update_revoked hfrozen hiss rfl b2 u p d sh]
  · intro caller from_ to_
    rw [transfer_revoked hfrozen rfl caller from_ to_]
  · intro b2 reason2
    rw [revoke_already hfrozen hiss rfl b2 reason2]

/-- C4 witness: token 0 revoked by its issuer 5; after the empty trace, the
issuer's update fails with `PassportRevoked`. -/
theorem revocation_terminal_witness :
    (update_dataset (run (revoke_passport wState 5 1 0 none).2 []) 5 2 0 "x" 0 "t" none).1 =
      .error .PassportRevoked :=
  ((revocation_terminal wState 5 1 0 none (by decide) _ (by rfl)) []).2.1 2 "x" 0 "t" none

/-- One call never changes the issuer or the granularity of an existing
record. -/
theorem step_issuer_granularity {s : State} {t : Nat} {r : PassportRecord}
    (hlt : t < s.next_token_id) (hrec : s.passports t = some r) (c : Call) :
    t < (step s c).next_token_id ∧ ∃ r2, (step s c).passports t = some r2 ∧
      r2.issuer = r.issuer ∧ r2.granularity = r.granularity := by
  refine ⟨lt_of_lt_of_le hlt (step_next_le s c), ?_⟩
  cases c with
  | register c b u p d g sh =>
      show ∃ r2, (register_passport s c b u p d g sh).2.passports t = some r2 ∧ _
      rw [register_passports_lt s c b p u d g sh hlt]
      exact ⟨r, hrec, rfl, rfl⟩
  | update c b t2 u p d sh =>
      show ∃ r2, (update_dataset s c b t2 u p d sh).2.passports t = some r2 ∧ _
      by_cases ht2 : t = t2
      · subst ht2
        rcases hres : update_dataset s c b t u p d sh with ⟨res, s'⟩
        cases res with
        | ok v =>
            obtain ⟨r', hrec', hiss, hst', hu, hd⟩ := update_ok_cond hres
            rw [hrec] at hrec'
            injection hrec' with hrec'
            subst hrec'
            have hshape := update_ok hrec c b u p d sh hiss hst' hu hd
            rw [hres] at hshape
            have hs' := congrArg Prod.snd hshape
            dsimp only at hs'
            refine ⟨{ r with
              dataset_uri := u, payload_hash := p, dataset_type := d,
              subject_id_hash := sh, version := r.version + 1, updated_at := b }, ?_, rfl, rfl⟩
            show s'.passports t = _
            rw [hs']
            exact mapInsert_self _ _ _
        | error e =>
            show ∃ r2, s'.passports t = some r2 ∧ _
            rw [update_err hres]
            exact ⟨r, hrec, rfl, rfl⟩
      · rw [update_passports_ne s c b t2 p u d sh ht2]
        exact ⟨r, hrec, rfl, rfl⟩
  | revoke c b t2 reason =>
      show ∃ r2, (revoke_passport s c b t2 reason).2.passports t = some r2 ∧ _
      by_cases ht2 : t = t2
      · subst ht2
        rcases hres : revoke_passport s c b t reason with ⟨res, s'⟩
        cases res with
        | ok v =>
            obtain ⟨r', hrec', hiss, hst'⟩ := revoke_ok_cond hres
            rw [hrec] at hrec'
            injection hrec' with hrec'
            subst hrec'
            have hshape := revoke_ok hrec c b reason hiss hst'
            rw [hres] at hshape
            have hs' := congrArg Prod.snd hshape
            dsimp only at hs'
            refine ⟨{ r with status := .Revoked, updated_at := b }, ?_, rfl, rfl⟩
            show s'.passports t = _
            rw [hs']
            exact mapInsert_self _ _ _
        | error e =>
            show ∃ r2, s'.passports t = some r2 ∧ _
            rw [revoke_err hres]
            exact ⟨r, hrec, rfl, rfl⟩
      · rw [revoke_passports_ne s c b t2 reason ht2]
        exact ⟨r, hrec, rfl, rfl⟩
  | approval c t2 tok =>
      show ∃ r2, (approve s c t2 tok).2.passports t = some r2 ∧ _
      rw [(approve_preserves s c t2 tok).1]
      exact ⟨r, hrec, rfl, rfl⟩
  | setForAll c op ap =>
      show ∃ r2, (set_approval_for_all s c op ap).2.passports t = some r2 ∧ _
      rw [(set_approval_preserves s c op ap).1]
      exact ⟨r, hrec, rfl, rfl⟩
  | xfer c t2 tok =>
      show ∃ r2, (transfer_token_from s c c t2 tok).2.passports t = some r2 ∧ _
      rw [(transfer_other_fields s c c t2 tok).1]
      exact ⟨r, hrec, rfl, rfl⟩
  | xferFrom c f t2 tok =>
      show ∃ r2, (transfer_token_from s c f t2 tok).2.passports t = some r2 ∧ _
      rw [(transfer_other_fields s c f t2 tok).1]
      exact ⟨r, hrec, rfl, rfl⟩

theorem run_issuer_granularity {s : State} {t : Nat} {r : PassportRecord}
    (hlt : t < s.next_token_id) (hrec : s.passports t = some r)
    (calls : List Call) :
    ∃ r2, (run s calls).passports t = some r2 ∧
      r2.issuer = r.issuer ∧ r2.granularity = r.granularity := by
  induction calls generalizing s r with
  | nil => exact ⟨r, hrec, rfl, rfl⟩
  | cons c rest ih =>
      obtain ⟨h1, r2, h2, h3, h4⟩ := step_issuer_granularity hlt hrec c
      obtain ⟨r3, h5, h6, h7⟩ := ih h1 h2
      refine ⟨r3, ?_, ?_, ?_⟩
      · simpa [run, List.foldl] using h5
      · rw [h6, h3]
      · rw [h7, h4]

/-- C5: for every token created by a successful `register_passport` and
every subsequent sequence of calls, the stored record still exists and its
`granularity` equals the value supplied at registration while its `issuer`
equals the caller that registered it — `update_dataset` does not take a
granularity and rebuilds the record from the old one leaving both fields
untouched, and transfers never write the passport store at all. -/
theorem granularity_issuer_immutable (s0 : State) (c b : Nat) (u : String)
    (p : Nat) (d : String) (g : Granularity) (sh : Option Hash) (tok : Nat)
    (s1 : State) (hreg : register_passport s0 c b u p d g sh = (.ok tok, s1)) :
    ∀ calls : List Call, ∃ r2, (run s1 calls).passports tok = some r2 ∧
      r2.issuer = c ∧ r2.granularity = g := by
  intro calls
  obtain ⟨htok, hs1⟩ := register_ok_state hreg
  subst htok
  have hlt : s0.next_token_id < s1.next_token_id := by
    rw [hs1]
    dsimp only
    omega
  have hrec : s1.passports s0.next_token_id = some
      { token_id := s0.next_token_id, issuer := c, dataset_uri := u, payload_hash := p,
        dataset_type := d, version := 1, status := .Active, created_at := b,
        updated_at := b, granularity := g, subject_id_hash := sh } := by
    rw [hs1]
    exact mapInsert_self _ _ _
  obtain ⟨r2, h1, h2, h3⟩ := run_issuer_granularity hlt hrec calls
  exact ⟨r2, h1, h2, h3⟩

theorem remove_token_from_underflow {s : State} {from_ tok : Nat}
    (hown : (s.token_owner tok).isSome)
    (hbal : (s.owned_tokens_count from_).getD 0 = 0) :
    remove_token_from s from_ tok = .error .InvalidInput := by
  unfold remove_token_from checked_sub
  rw [hbal]
  simp [hown]

theorem add_token_to_overflow {s : State} {to_ tok : Nat}
    (hfree : s.token_owner tok = none)
    (hbal : (s.owned_tokens_count to_).getD 0 = U128_MAX) :
    add_token_to s to_ tok = .error .InvalidInput := by
  unfold add_token_to checked_add
  rw [hbal, hfree]
  have hlt : ¬ (U128_MAX + 1 ≤ U128_MAX) := by omega
  simp [hlt]

/-- C8: registry arithmetic is exact and checked.  The balance decrement and
increment performed by transfers use checked `u128` arithmetic whose failure
is surfaced as `InvalidInput` (underflow on the sender's balance, overflow
on the receiver's); and on every state reachable from the empty registry the
token counter is bounded by the trace length and every stored version by one
more, so the counter increment of a successful registration and the version
increment of a successful update never wrap their `u128`/`u32` width on any
feasible trace. -/
theorem checked_arithmetic_no_overflow :
    (∀ (s : State) (caller from_ to_ tok : Nat) (r : PassportRecord),
      s.passports tok = some r → r.status ≠ .Revoked →
      s.token_owner tok = some from_ →
      approved_or_owner s caller tok from_ = true →
      balance_of s from_ = 0 →
      transfer_token_from s caller from_ to_ tok =
        (.error .InvalidInput,
          { s with token_approvals := mapRemove s.token_approvals tok })) ∧
    (∀ (s : State) (caller from_ to_ tok : Nat) (r : PassportRecord),
      s.passports tok = some r → r.status ≠ .Revoked →
      s.token_owner tok = some from_ →
      approved_or_owner s caller tok from_ = true →
      1 ≤ balance_of s from_ → to_ ≠ from_ → balance_of s to_ = U128_MAX →
      (transfer_token_from s caller from_ to_ tok).1 = .error .InvalidInput) ∧
    (∀ calls : List Call, calls.length ≤ U128_MAX →
      (run State.new calls).next_token_id ≤ calls.length ∧
      (∀ t r, (run State.new calls).passports t = some r →
        r.version ≤ calls.length + 1) ∧
      (calls.length < U128_MAX →
        ((run State.new calls).next_token_id + 1) % 2 ^ 128 =
          (run State.new calls).next_token_id + 1) ∧
      (calls.length ≤ 2 ^ 32 - 3 →
        ∀ t r, (run State.new calls).passports t = some r →
          (r.version + 1) % 2 ^ 32 = r.version + 1)) := by
  refine ⟨?_, ?_, ?_⟩
  · intro s caller from_ to_ tok r hrec hst hown happ hbal
    have hsome : (s.token_owner tok).isSome := by
      rw [hown]
      rfl
    unfold transfer_token_from
    rw [hrec]
    show (if r.status = .Revoked then _ else _) = _
    rw [if_neg hst]
    show (match owner_of s tok with | none => _ | some owner => _) = _
    rw [show owner_of s tok = some from_ from hown]
    show (if from_ ≠ from_ then _ else _) = _
    rw [if_neg (by simp)]
    show (if approved_or_owner s caller tok from_ = false then _ else _) = _
    rw [happ, if_neg (by simp)]
    show (match remove_token_from
        { s with token_approvals := mapRemove s.token_approvals tok } from_ tok with
      | .error e => _ | .ok s2 => _) = _
    rw [@remove_token_from_underflow
      { s with token_approvals := mapRemove s.token_approvals tok } from_ tok hsome hbal]
  · intro s caller from_ to_ tok r hrec hst hown happ hbal hne hmax
    have hsome : (s.token_owner tok).isSome := by
      rw [hown]
      rfl
    have hmax2 : ((mapInsert s.owned_tokens_count from_
        ((s.owned_tokens_count from_).getD 0 - 1)) to_).getD 0 = U128_MAX := by
      rw [mapInsert_ne _ _ _ _ hne]
      exact hmax
    have hpair : transfer_token_from s caller from_ to_ tok =
        (.error .InvalidInput,
          { s with token_approvals := mapRemove s.token_approvals tok,
                   owned_tokens_count :=
                     mapInsert s.owned_tokens_count from_ (balance_of s from_ - 1),
                   token_owner := mapRemove s.token_owner tok }) := by
      unfold transfer_token_from
      rw [hrec]
      show (if r.status = .Revoked then _ else _) = _
      rw [if_neg hst]
      show (match owner_of s tok with | none => _ | some owner => _) = _
      rw [show owner_of s tok = some from_ from hown]
      show (if from_ ≠ from_ then _ else _) = _
      rw [if_neg (by simp)]
      show (if approved_or_owner s caller tok from_ = false then _ else _) = _
      rw [happ, if_neg (by simp)]
      show (match remove_token_from
          { s with token_approvals := mapRemove s.token_approvals tok } from_ tok with
        | .error e => _ | .ok s2 => _) = _
      rw [remove_token_from_eq_ok
        { s with token_approvals := mapRemove s.token_approvals tok } from_ tok hsome hbal]
      show (match add_token_to _ to_ tok with | .error e => _ | .ok s3 => _) = _
      rw [add_token_to_overflow (mapRemove_self _ _) hmax2]
      rfl
    rw [hpair]
  · intro calls hlen
    obtain ⟨-, hn, hv⟩ := reach_from_new calls hlen
    have hU : U128_MAX = 2 ^ 128 - 1 := rfl
    refine ⟨hn, hv, ?_, ?_⟩
    · intro hlt
      apply Nat.mod_eq_of_lt
      omega
    · intro h32 t r hr
      have := hv t r hr
      apply Nat.mod_eq_of_lt
      have h2 : (2 : Nat) ^ 32 - 3 < 2 ^ 128 - 1 := by norm_num
      omega

/-- C8 witness: the underflow clause at the inconsistent state `cBadState`
(owner with zero balance), and the trace bounds after one registration. -/
theorem checked_arithmetic_witness :
    transfer_token_from cBadState 1 1 3 0 =
      (.error .InvalidInput,
        { cBadState with token_approvals := mapRemove cBadState.token_approvals 0 }) :=
  checked_arithmetic_no_overflow.1 cBadState 1 1 3 0
    { token_id := 0, issuer := 9, dataset_uri := "u", payload_hash := 0,
      dataset_type := "t", version := 1, status := .Active, created_at := 0,
      updated_at := 0, granularity := .Item, subject_id_hash := none }
    (by rfl) (by decide) (by rfl) (by rfl) (by rfl)

/-- C5 witness: after registration by caller 5 with `Batch` granularity and
one successful update, issuer and granularity are unchanged. -/
theorem granularity_issuer_immutable_witness :
    ∃ r2, (run (register_passport State.new 5 0 "u" 0 "t" .Batch none).2
        [Call.update 5 1 0 "w" 1 "t" none]).passports 0 = some r2 ∧
      r2.issuer = 5 ∧ r2.granularity = .Batch :=
  granularity_issuer_immutable State.new 5 0 "u" 0 "t" .Batch none 0 _ (by rfl)
    [Call.update 5 1 0 "w" 1 "t" none]

/-! ### Version history -/

theorem expectedTail_length (v : Nat) (us : List UpdArgs) :
    (expectedTail v us).length = us.length := by
  induction us generalizing v with
  | nil => rfl
  | cons a rest ih =>
      show (expectedTail v (a :: rest)).length = rest.length + 1
      rw [show expectedTail v (a :: rest) = _ :: expectedTail (v + 1) rest from rfl]
      rw [List.length_cons, ih (v + 1)]

theorem filterMap_range_eq {α : Type} (n : Nat) (l : List α) (f : Nat → Option α)
    (hlen : l.length = n) (hf : ∀ i, i < n → f i = l[i]?) :
    (List.range n).filterMap f = l := by
  induction n generalizing l f with
  | zero =>
      cases l with
      | nil => rfl
      | cons a tl => simp at hlen
  | succ m ih =>
      cases l with
      | nil => simp at hlen
      | cons a tl =>
          rw [List.range_succ_eq_map]
          have h0 : f 0 = some a := by
            rw [hf 0 (by omega)]
            exact List.getElem?_cons_zero
          rw [show ((0 :: (List.range m).map Nat.succ).filterMap f) =
              match f 0 with
              | none => ((List.range m).map Nat.succ).filterMap f
              | some b => b :: ((List.range m).map Nat.succ).filterMap f
            from List.filterMap_cons f 0 _, h0]
          show a :: ((List.range m).map Nat.succ).filterMap f = a :: tl
          rw [List.filterMap_map]
          congr 1
          refine ih tl (f ∘ Nat.succ) (by simpa using hlen) ?_
          intro i hi
          have := hf (i + 1) (by omega)
          rw [show (f ∘ Nat.succ) i = f (i + 1) from rfl, this]
          exact List.getElem?_cons_succ

/-- Running a sequence of successful updates extends the version history by
exactly the expected entries, one per update, in order. -/
theorem updSeq_history (us : List UpdArgs) (t : Nat) (s : State)
    (r : PassportRecord) (acc : List VersionHistory)
    (hrec : s.passports t = some r)
    (hlen : acc.length = r.version)
    (hhist : ∀ i, i < r.version → s.version_history (t, i + 1) = acc[i]?)
    (s2 : State) (hseq : updSeq t s us = some s2) :
    ∃ r2, s2.passports t = some r2 ∧
      r2.version = r.version + us.length ∧
      (∀ i, i < r2.version →
        s2.version_history (t, i + 1) =
          (acc ++ expectedTail (r.version + 1) us)[i]?) := by
  induction us generalizing s r acc with
  | nil =>
      rw [show updSeq t s [] = some s from rfl] at hseq
      injection hseq with hseq
      subst hseq
      refine ⟨r, hrec, by simp [expectedTail], ?_⟩
      intro i hi
      rw [show expectedTail (r.version + 1) [] = [] from rfl, List.append_nil]
      exact hhist i hi
  | cons a rest ih =>
      rw [show updSeq t s (a :: rest) =
          (match update_dataset s a.caller a.blk t a.uri a.phash a.dtype a.subj with
           | (.ok _, s') => updSeq t s' rest
           | (.error _, _) => none) from rfl] at hseq
      rcases hres : update_dataset s a.caller a.blk t a.uri a.phash a.dtype a.subj
        with ⟨res, s'⟩
      rw [hres] at hseq
      cases res with
      | error e => exact absurd hseq (by simp)
      | ok v =>
          obtain ⟨r', hrec', hiss, hst, hu, hd⟩ := update_ok_cond hres
          rw [hrec] at hrec'
          injection hrec' with hrec'
          subst hrec'
          have hshape := update_ok hrec a.caller a.blk a.uri a.phash a.dtype a.subj hiss hst hu hd
          rw [hres] at hshape
          have hs' := congrArg Prod.snd hshape
          dsimp only at hs'
          subst hs'
          have hrec2 : (mapInsert s.passports t { r with
              dataset_uri := a.uri, payload_hash := a.phash, dataset_type := a.dtype,
              subject_id_hash := a.subj, version := r.version + 1, updated_at := a.blk }) t =
              some { r with
              dataset_uri := a.uri, payload_hash := a.phash, dataset_type := a.dtype,
              subject_id_hash := a.subj, version := r.version + 1, updated_at := a.blk } :=
            mapInsert_self _ _ _
          have hlen2 : (acc ++
              [{ version := r.version + 1, dataset_uri := a.uri, payload_hash := a.phash,
                 dataset_type := a.dtype, updated_at := a.blk, updated_by := a.caller }] :
              List VersionHistory).length = r.version + 1 := by
            rw [List.length_append, hlen]
            rfl
          have hhist2 : ∀ i, i < r.version + 1 →
              mapInsert s.version_history (t, r.version + 1)
                { version := r.version + 1, dataset_uri := a.uri, payload_hash := a.phash,
                  dataset_type := a.dtype, updated_at := a.blk, updated_by := a.caller }
                (t, i + 1) =
              (acc ++
                [{ version := r.version + 1, dataset_uri := a.uri, payload_hash := a.phash,
                   dataset_type := a.dtype, updated_at := a.blk, updated_by := a.caller }])[i]? := by
            intro i hi
            by_cases hiv : i = r.version
            · rw [hiv, ← hlen, mapInsert_self, List.getElem?_concat_length]
            · have hil : i < r.version := by omega
              have hkey : (t, i + 1) ≠ (t, r.version + 1) := by
                intro hc
                have := congrArg Prod.snd hc
                simp only at this
                omega
              rw [mapInsert_ne _ _ _ _ hkey]
              rw [List.getElem?_append_left (by rw [hlen]; exact hil)]
              exact hhist i hil
          obtain ⟨r2, h1, h2, h3⟩ := ih _ _ _ hrec2 hlen2 hhist2 hseq
          refine ⟨r2, h1, ?_, ?_⟩
          · rw [h2]
            show r.version + 1 + rest.length = r.version + (a :: rest).length
            rw [List.length_cons]
            omega
          · intro i hi
            rw [h3 i hi, List.append_assoc]
            rfl

/-- C3: for every token created by a successful `register_passport` followed
by `n` successful `update_dataset` calls, the record's version equals
`n + 1`, and `get_version_history` returns exactly `n + 1` entries for
versions `1 ..= n+1` in ascending order, where entry `k` carries the
`dataset_uri`, `payload_hash` and `dataset_type` supplied when version `k`
was written (the registration for `k = 1`, the `(k-1)`-th update otherwise)
and `updated_by` is the caller that produced that version;
`get_version_history` of an unknown token returns the empty list. -/
theorem register_update_version_history (s0 : State) (c b : Nat) (u : String)
    (p : Nat) (d : String) (g : Granularity) (sh : Option Hash)
    (tok : Nat) (s1 : State)
    (hreg : register_passport s0 c b u p d g sh = (.ok tok, s1))
    (us : List UpdArgs) (s2 : State) (hseq : updSeq tok s1 us = some s2) :
    (∃ r2, s2.passports tok = some r2 ∧ r2.version = us.length + 1) ∧
    get_version_history s2 tok =
      { version := 1, dataset_uri := u, payload_hash := p, dataset_type := d,
        updated_at := b, updated_by := c } :: expectedTail 2 us ∧
    (∀ (s3 : State) (t3 : Nat), get_passport s3 t3 = none →
      get_version_history s3 t3 = []) := by
  obtain ⟨htok, hs1⟩ := register_ok_state hreg
  subst htok
  have hrec1 : s1.passports s0.next_token_id = some
      { token_id := s0.next_token_id, issuer := c, dataset_uri := u, payload_hash := p,
        dataset_type := d, version := 1, status := .Active, created_at := b,
        updated_at := b, granularity := g, subject_id_hash := sh } := by
    rw [hs1]
    exact mapInsert_self _ _ _
  have hhist1 : ∀ i, i < (1 : Nat) →
      s1.version_history (s0.next_token_id, i + 1) =
      ([{ version := 1, dataset_uri := u, payload_hash := p, dataset_type := d,
          updated_at := b, updated_by := c }] : List VersionHistory)[i]? := by
    intro i hi
    have hi0 : i = 0 := by omega
    subst hi0
    rw [hs1]
    exact mapInsert_self _ _ _
  obtain ⟨r2, h1, h2, h3⟩ := updSeq_history us s0.next_token_id s1 _
    [{ version := 1, dataset_uri := u, payload_hash := p, dataset_type := d,
       updated_at := b, updated_by := c }] hrec1 (by rfl) hhist1 s2 hseq
  have hver : r2.version = us.length + 1 := by
    rw [h2]
    show 1 + us.length = us.length + 1
    omega
  refine ⟨⟨r2, h1, hver⟩, ?_, ?_⟩
  · unfold get_version_history
    rw [h1]
    refine filterMap_range_eq r2.version _ _ ?_ ?_
    · rw [List.length_cons, expectedTail_length, hver]
    · intro i hi
      rw [h3 i hi]
      rfl
  · intro s3 t3 hnone
    unfold get_version_history
    rw [show s3.passports t3 = none from hnone]

/-- C3 witness: registration followed by one successful update yields
version 2 and the two expected history entries in order. -/
theorem register_update_version_history_witness :
    ∃ s2, updSeq 0 (register_passport State.new 5 0 "u" 7 "t" .Batch none).2
        [⟨5, 1, "w", 9, "t2", none⟩] = some s2 ∧
      (∃ r2, s2.passports 0 = some r2 ∧ r2.version = 2) ∧
      get_version_history s2 0 =
        [{ version := 1, dataset_uri := "u", payload_hash := 7, dataset_type := "t",
           updated_at := 0, updated_by := 5 },
         { version := 2, dataset_uri := "w", payload_hash := 9, dataset_type := "t2",
           updated_at := 1, updated_by := 5 }] := by
  refine ⟨_, rfl, ?_⟩
  have h := register_update_version_history State.new 5 0 "u" 7 "t" .Batch none 0 _
    (by rfl) [⟨5, 1, "w", 9, "t2", none⟩] _ (by rfl)
  exact ⟨h.1, h.2.1⟩

/-! ### Subject index -/

/-- A call that does not pass `hh` as its subject hash leaves the reverse
index entry for `hh` unchanged. -/
theorem step_subject_not_supplied (s : State) (hh : Hash) (c : Call)
    (hns : suppliesHash hh c = false) :
    (step s c).subject_id_to_token hh = s.subject_id_to_token hh := by
  cases c with
  | register c b u p d g sh =>
      have hne : sh ≠ some hh := by
        intro hc
        rw [show suppliesHash hh (Call.register c b u p d g sh) = (sh == some hh) from rfl,
          hc] at hns
        simp at hns
      show (register_passport s c b u p d g sh).2.subject_id_to_token hh = _
      rcases hres : register_passport s c b u p d g sh with ⟨res, s'⟩
      show s'.subject_id_to_token hh = s.subject_id_to_token hh
      cases res with
      | ok v =>
          rw [(register_ok_state hres).2]
          cases sh with
          | none => rfl
          | some h2 =>
              show mapInsert s.subject_id_to_token h2 s.next_token_id hh = _
              exact mapInsert_ne _ _ _ _ (fun hc => hne (by rw [hc]))
      | error e =>
          rcases register_err_state hres with h2 | h2 <;> rw [h2]
  | update c b t u p d sh =>
      have hne : sh ≠ some hh := by
        intro hc
        rw [show suppliesHash hh (Call.update c b t u p d sh) = (sh == some hh) from rfl,
          hc] at hns
        simp at hns
      show (update_dataset s c b t u p d sh).2.subject_id_to_token hh = _
      rcases hres : update_dataset s c b t u p d sh with ⟨res, s'⟩
      show s'.subject_id_to_token hh = s.subject_id_to_token hh
      cases res with
      | ok v =>
          obtain ⟨r, hrec, hiss, hst, hu, hd⟩ := update_ok_cond hres
          have hshape := update_ok hrec c b u p d sh hiss hst hu hd
          rw [hres] at hshape
          have hs' := congrArg Prod.snd hshape
          dsimp only at hs'
          rw [hs']
          cases sh with
          | none => rfl
          | some h2 =>
              show mapInsert s.subject_id_to_token h2 t hh = _
              exact mapInsert_ne _ _ _ _ (fun hc => hne (by rw [hc]))
      | error e =>
          rw [update_err hres]
  | revoke c b t reason =>
      show (revoke_passport s c b t reason).2.subject_id_to_token hh = _
      rcases hres : revoke_passport s c b t reason with ⟨res, s'⟩
      show s'.subject_id_to_token hh = s.subject_id_to_token hh
      cases res with
      | ok v =>
          obtain ⟨r, hrec, hiss, hst⟩ := revoke_ok_cond hres
          have hshape := revoke_ok hrec c b reason hiss hst
          rw [hres] at hshape
          have hs' := congrArg Prod.snd hshape
          dsimp only at hs'
          rw [hs']
      | error e =>
          rw [revoke_err hres]
  | approval c t tok =>
      show (approve s c t tok).2.subject_id_to_token hh = _
      rw [(approve_preserves s c t tok).2.2.2.2.2]
  | setForAll c op ap =>
      show (set_approval_for_all s c op ap).2.subject_id_to_token hh = _
      rw [(set_approval_preserves s c op ap).2.2.2.2.2]
  | xfer c t tok =>
      show (transfer_token_from s c c t tok).2.subject_id_to_token hh = _
      rw [(transfer_other_fields s c c t tok).2.2.2.1]
  | xferFrom c f t tok =>
      show (transfer_token_from s c f t tok).2.subject_id_to_token hh = _
      rw [(transfer_other_fields s c f t tok).2.2.2.1]

theorem run_subject_not_supplied (calls : List Call) (s : State) (hh : Hash)
    (hall : ∀ c ∈ calls, suppliesHash hh c = false) :
    (run s calls).subject_id_to_token hh = s.subject_id_to_token hh := by
  induction calls generalizing s with
  | nil => rfl
  | cons c rest ih =>
      have h1 := step_subject_not_supplied s hh c (hall c (by simp))
      have h2 := ih (step s c) (fun c2 hc2 => hall c2 (by simp [hc2]))
      calc (run s (c :: rest)).subject_id_to_token hh
          = (run (step s c) rest).subject_id_to_token hh := by rw [run, run, List.foldl]
        _ = s.subject_id_to_token hh := by rw [h2, h1]

/-- C9: `find_token_by_subject_id hash` returns the token id most recently
associated with that hash by a successful `register_passport` or
`update_dataset` supplying it, and is absent for a hash never supplied: a
successful registration supplying the hash binds it to the fresh token id
and a successful update binds it to the updated token; failing calls leave
the index untouched; any call not supplying the hash — including an update
that changes or removes a record's subject hash — leaves the entry for the
old hash pointing wherever it last pointed; and over any trace from the
empty registry in which no call supplies the hash, the lookup is absent. -/
theorem subject_index_last_writer :
    (∀ s c b u p (d : String) g hh v s',
      register_passport s c b u p d g (some hh) = (.ok v, s') →
      find_token_by_subject_id s' hh = some v) ∧
    (∀ s c b u p (d : String) g sh e s',
      register_passport s c b u p d g sh = (.error e, s') →
      ∀ hh, find_token_by_subject_id s' hh = find_token_by_subject_id s hh) ∧
    (∀ s c b t u p (d : String) hh vv s',
      update_dataset s c b t u p d (some hh) = (.ok vv, s') →
      find_token_by_subject_id s' hh = some t) ∧
    (∀ s c b t u p (d : String) sh e s',
      update_dataset s c b t u p d sh = (.error e, s') →
      ∀ hh, find_token_by_subject_id s' hh = find_token_by_subject_id s hh) ∧
    (∀ s (c : Call) hh, suppliesHash hh c = false →
      find_token_by_subject_id (step s c) hh = find_token_by_subject_id s hh) ∧
    (∀ (calls : List Call) hh, (∀ c ∈ calls, suppliesHash hh c = false) →
      find_token_by_subject_id (run State.new calls) hh = none) := by
  refine ⟨?_, ?_, ?_, ?_, ?_, ?_⟩
  · intro s c b u p d g hh v s' h
    obtain ⟨hv, hs'⟩ := register_ok_state h
    subst hv
    rw [show find_token_by_subject_id s' hh = s'.subject_id_to_token hh from rfl, hs']
    exact mapInsert_self _ _ _
  · intro s c b u p d g sh e s' h hh
    rcases register_err_state h with h2 | h2 <;> rw [
      show find_token_by_subject_id s' hh = s'.subject_id_to_token hh from rfl, h2] <;> rfl
  · intro s c b t u p d hh vv s' h
    obtain ⟨r, hrec, hiss, hst, hu, hd⟩ := update_ok_cond h
    have hshape := update_ok hrec c b u p d (some hh) hiss hst hu hd
    rw [h] at hshape
    have hs' := congrArg Prod.snd hshape
    dsimp only at hs'
    rw [show find_token_by_subject_id s' hh = s'.subject_id_to_token hh from rfl, hs']
    exact mapInsert_self _ _ _
  · intro s c b t u p d sh e s' h hh
    rw [show find_token_by_subject_id s' hh = s'.subject_id_to_token hh from rfl,
      update_err h]
    rfl
  · intro s c hh hns
    exact step_subject_not_supplied s hh c hns
  · intro calls hh hall
    rw [show find_token_by_subject_id (run State.new calls) hh =
        (run State.new calls).subject_id_to_token hh from rfl,
      run_subject_not_supplied calls State.new hh hall]
    rfl

/-- C9 witness: registering with subject hash 42 makes the hash resolve to
the fresh token id 0. -/
theorem subject_index_last_writer_witness :
    find_token_by_subject_id
      (register_passport State.new 5 0 "u" 0 "t" .Batch (some 42)).2 42 = some 0 :=
  subject_index_last_writer.1 State.new 5 0 "u" 0 "t" .Batch 42 0 _ (by rfl)

/-- C10 witness: self-transfer of token 0 by holder 5 on the one-token
state. -/
theorem self_transfer_identity_witness :
    (transfer wState 5 5 0).1 = .ok () ∧
    owner_of (transfer wState 5 5 0).2 0 = some 5 ∧
    (∀ a, balance_of (transfer wState 5 5 0).2 a = balance_of wState a) ∧
    get_approved (transfer wState 5 5 0).2 0 = none :=
  self_transfer_identity wState
    (reach_from_new [Call.register 5 0 "u" 0 "t" Granularity.Batch none] (by decide)).1
    (by decide) 5 0
    { token_id := 0, issuer := 5, dataset_uri := "u", payload_hash := 0,
      dataset_type := "t", version := 1, status := .Active, created_at := 0,
      updated_at := 0, granularity := .Batch, subject_id_hash := none }
    (by rfl) (by rfl) (by rfl)

end Dpp
